import Mathlib

/-!
Verification development for the entity correlation engine of `reccmp`
(`reccmp/isledecomp/compare/db.py`, `match_msvc.py`, `lines.py`).

The sqlite-backed `EntityDb` is modelled as a list of rows (`Entity`) whose
`kvstore` column is a flat JSON object, together with the auxiliary `labels`
and `types` tables.  SQL statements are translated operation by operation;
`json_patch` follows the RFC-7396 merge-patch semantics that sqlite
implements (a null value deletes the key).  Python dictionaries are modelled
as association lists with insertion-order semantics (update-in-place keeps
the position of an existing key, a new key is appended).
-/

namespace Reccmp

/-- A scalar JSON value as stored inside the `kvstore` column. -/
inductive JVal where
  | jnull : JVal
  | jint : Int → JVal
  | jstr : String → JVal
  | jbool : Bool → JVal
deriving DecidableEq, Repr

/-- A flat JSON object / Python dict: association list with unique keys,
in insertion order. -/
abbrev KV := List (String × JVal)

/-- Lookup in an association list (first occurrence). -/
def kvGet (kv : KV) (k : String) : Option JVal :=
  match kv with
  | [] => none
  | p :: rest => if p.1 == k then some p.2 else kvGet rest k

/-- Python dict assignment `d[k] = v`: replace in place if the key exists
(keys are unique in a dict, so at the first occurrence), otherwise
append. -/
def kvSet (kv : KV) (k : String) (v : JVal) : KV :=
  match kv with
  | [] => [(k, v)]
  | p :: rest => if p.1 == k then (k, v) :: rest else p :: kvSet rest k v

/-- Remove a key from an association list. -/
def kvErase (kv : KV) (k : String) : KV :=
  kv.filter (fun p => p.1 != k)

/-- Python `dict.update`: values of `new` win, no deletion. -/
def kvUpdate (old new : KV) : KV :=
  new.foldl (fun acc p => kvSet acc p.1 p.2) old

/-- sqlite `json_patch(base, patch)` on flat objects (RFC 7396):
keys of `patch` replace those of `base`; a null value deletes the key. -/
def jsonPatch (base patch : KV) : KV :=
  patch.foldl
    (fun acc p =>
      match p.2 with
      | JVal.jnull => kvErase acc p.1
      | v => kvSet acc p.1 v)
    base

/-- sqlite `json_extract(kvstore, '$.k')` as it appears in a SQL expression:
returns SQL NULL both when the key is missing and when its value is JSON
null.  A JSON boolean is extracted as the SQL integer 0 or 1. -/
def jext (kv : KV) (k : String) : Option JVal :=
  match kvGet kv k with
  | some JVal.jnull => none
  | some (JVal.jbool b) => some (JVal.jint (if b then 1 else 0))
  | x => x

/-- Charwise ASCII lowercasing (`str.lower()` / sqlite NOCASE); written on
the character list so that it evaluates by kernel reduction. -/
def strLower (s : String) : String := ⟨s.data.map Char.toLower⟩

/-- Python truthiness of `kwargs.get(k)` for the values we model. -/
def truthy (v : Option JVal) : Bool :=
  match v with
  | none => false
  | some JVal.jnull => false
  | some (JVal.jint n) => n != 0
  | some (JVal.jstr s) => s != ""
  | some (JVal.jbool b) => b

/-- Modelled from the spec: `EntityType` tags (FUNCTION, DATA, POINTER,
STRING, WIDECHAR, VTABLE, LINE, ...).  `reccmp/isledecomp/types.py` is not
part of the provided sources; the claims only depend on the tags being
distinct integers, so we fix one arbitrary distinct assignment. -/
def EntityType.FUNCTION : Int := 1

/-- Modelled from the spec: the DATA entity type tag. -/
def EntityType.DATA : Int := 2

/-- Modelled from the spec: the POINTER entity type tag. -/
def EntityType.POINTER : Int := 3

/-- Modelled from the spec: the STRING entity type tag. -/
def EntityType.STRING : Int := 4

/-- Modelled from the spec: the WIDECHAR entity type tag. -/
def EntityType.WIDECHAR : Int := 5

/-- Modelled from the spec: the VTABLE entity type tag. -/
def EntityType.VTABLE : Int := 6

/-- Modelled from the spec: the LINE entity type tag. -/
def EntityType.LINE : Int := 7

/-- Modelled from the spec: the event kinds accepted by the report sink
(`reccmp/isledecomp/compare/event.py` is not part of the provided sources;
the spec lists exactly these four kinds). -/
inductive EventKind where
  | NO_MATCH : EventKind
  | AMBIGUOUS_MATCH : EventKind
  | NON_UNIQUE_SYMBOL : EventKind
  | INVALID_USER_DATA : EventKind
deriving DecidableEq, Repr

/-- One call to the report sink: `report(kind, addr, msg)`. -/
structure Event where
  kind : EventKind
  addr : Int
  msg : String
deriving DecidableEq, Repr

/-- Lowercase hexadecimal rendering of a nonnegative integer, as produced by
the Python format `f"0x-:x"` (addresses are nonnegative). -/
def hexStr (n : Int) : String :=
  "0x" ++ String.mk (Nat.toDigits 16 n.toNat)

/-- One row of the `entities` table: `orig_addr int unique`,
`recomp_addr int unique`, `kvstore text`. -/
structure Entity where
  orig_addr : Option Int
  recomp_addr : Option Int
  kvstore : KV
deriving DecidableEq, Repr

/-- The database state: the `entities` table in rowid order plus the
`labels` and `types` tables (primary key `(img, addr)`). -/
structure DbState where
  entities : List Entity
  labels : List ((Int × Int) × String)
  types : List ((Int × Int) × Int)
deriving DecidableEq, Repr

/-- The empty database right after `executescript(_SETUP_SQL)`. -/
def DbState.empty : DbState := ⟨[], [], []⟩

/-- Whether `SELECT 1 FROM entities WHERE orig_addr = ?` is nonempty. -/
def origUsed (es : List Entity) (a : Int) : Bool :=
  es.any (fun e => e.orig_addr == some a)

/-- Whether `SELECT 1 FROM entities WHERE recomp_addr = ?` is nonempty. -/
def recompUsed (es : List Entity) (a : Int) : Bool :=
  es.any (fun e => e.recomp_addr == some a)

/-- One row of `EntityDb.bulk_orig_insert`: plain mode is
`INSERT or ignore INTO entities (orig_addr, kvstore) values (?,?)`;
upsert mode is `INSERT ... ON CONFLICT (orig_addr) DO UPDATE SET
kvstore = json_patch(kvstore, excluded.kvstore)`. -/
def origInsertRow (upsert : Bool) (es : List Entity) (a : Int) (kv : KV) :
    List Entity :=
  if origUsed es a then
    if upsert then
      es.map (fun e =>
        if e.orig_addr == some a then
          { e with kvstore := jsonPatch e.kvstore kv }
        else e)
    else es
  else
    es ++ [⟨some a, none, kv⟩]

/-- Model of `EntityDb.bulk_orig_insert` over its `executemany` row list. -/
def bulk_orig_insert (upsert : Bool) (es : List Entity)
    (rows : List (Int × KV)) : List Entity :=
  rows.foldl (fun acc r => origInsertRow upsert acc r.1 r.2) es

/-- One row of `EntityDb.bulk_recomp_insert` (mirror image of
`origInsertRow`). -/
def recompInsertRow (upsert : Bool) (es : List Entity) (a : Int) (kv : KV) :
    List Entity :=
  if recompUsed es a then
    if upsert then
      es.map (fun e =>
        if e.recomp_addr == some a then
          { e with kvstore := jsonPatch e.kvstore kv }
        else e)
    else es
  else
    es ++ [⟨none, some a, kv⟩]

/-- Model of `EntityDb.bulk_recomp_insert` over its `executemany` row list. -/
def bulk_recomp_insert (upsert : Bool) (es : List Entity)
    (rows : List (Int × KV)) : List Entity :=
  rows.foldl (fun acc r => recompInsertRow upsert acc r.1 r.2) es

/-- First phase of `EntityDb.bulk_match` for one pair: `UPDATE entities SET
kvstore = json_patch(o.kvstore, json_patch('\x7b\x7d', entities.kvstore))
FROM (SELECT kvstore FROM entities WHERE orig_addr = ? and recomp_addr is
null) o WHERE recomp_addr = ? AND orig_addr is null`. -/
def matchKvCopy (es : List Entity) (o r : Int) : List Entity :=
  match es.find? (fun e => e.orig_addr == some o && e.recomp_addr == none) with
  | none => es
  | some src =>
    es.map (fun e =>
      if e.recomp_addr == some r && e.orig_addr == none then
        { e with kvstore := jsonPatch src.kvstore (jsonPatch [] e.kvstore) }
      else e)

/-- Second phase of `EntityDb.bulk_match` for one pair: `UPDATE OR REPLACE
entities SET orig_addr = ? WHERE recomp_addr = ? AND orig_addr is null`.
If a row matches the WHERE clause, `OR REPLACE` first deletes any other row
that would conflict on the unique `orig_addr` column (such a row has
`orig_addr = o`, hence never itself matches the WHERE clause). -/
def matchSetOrig (es : List Entity) (o r : Int) : List Entity :=
  if es.any (fun e => e.recomp_addr == some r && e.orig_addr == none) then
    (es.filter (fun e => !(e.orig_addr == some o))).map (fun e =>
      if e.recomp_addr == some r && e.orig_addr == none then
        { e with orig_addr := some o }
      else e)
  else es

/-- Model of `EntityDb.bulk_match`: both `executemany` statements run over the whole
pair list in order (all kv copies first, then all address updates). -/
def bulk_match (es : List Entity) (pairs : List (Int × Int)) : List Entity :=
  let es1 := pairs.foldl (fun acc p => matchKvCopy acc p.1 p.2) es
  pairs.foldl (fun acc p => matchSetOrig acc p.1 p.2) es1

/-- One row of `EntityDb.bulk_set_recomp_addr`: `UPDATE entities SET
recomp_addr = ? WHERE orig_addr = ? and recomp_addr is null`.  A plain
UPDATE raises `IntegrityError` when the new `recomp_addr` value collides
with the unique constraint. -/
def setRecompAddrRow (es : List Entity) (o r : Int) :
    Except String (List Entity) :=
  if es.any (fun e => e.orig_addr == some o && e.recomp_addr == none) then
    if recompUsed es r then
      Except.error "UNIQUE constraint failed: entities.recomp_addr"
    else
      Except.ok (es.map (fun e =>
        if e.orig_addr == some o && e.recomp_addr == none then
          { e with recomp_addr := some r }
        else e))
  else
    Except.ok es

/-- Model of `EntityDb.bulk_set_recomp_addr` over its `executemany` row list;
stops at the first constraint violation. -/
def bulk_set_recomp_addr (es : List Entity) (pairs : List (Int × Int)) :
    Except String (List Entity) :=
  pairs.foldlM (fun acc p => setRecompAddrRow acc p.1 p.2) es

/-- Model of `EntityDb.set_pair`: returns `false` without mutation when the orig
address is already used, otherwise links and overwrites `$.type`
(`json_set` stores JSON null when `entity_type` is None). -/
def set_pair (s : DbState) (o r : Int) (entity_type : Option Int) :
    DbState × Bool :=
  if origUsed s.entities o then
    (s, false)
  else
    let hit := recompUsed s.entities r
    let es := s.entities.map (fun e =>
      if e.recomp_addr == some r then
        { e with
            orig_addr := some o
            kvstore := kvSet e.kvstore "type"
              (match entity_type with
               | some t => JVal.jint t
               | none => JVal.jnull) }
      else e)
    ({ s with entities := es }, hit)

/-- Model of `EntityDb.get_by_orig` with `exact=True`: the row with this orig
address (unique under the table constraint). -/
def get_by_orig (s : DbState) (a : Int) : Option Entity :=
  s.entities.find? (fun e => e.orig_addr == some a)

/-- Model of `EntityDb.get_by_recomp` with `exact=True`. -/
def get_by_recomp (s : DbState) (a : Int) : Option Entity :=
  s.entities.find? (fun e => e.recomp_addr == some a)

/-- SQL `json_extract(kvstore,'$.type') != t` under three-valued logic,
for a row whose extracted value is `v` (`none` = SQL NULL: the WHERE clause
rejects the row).  sqlite compares a text value as greater than any
integer, hence unequal. -/
def sqlTypeNe (v : Option JVal) (t : Int) : Bool :=
  match v with
  | none => false
  | some (JVal.jint n) => n != t
  | some (JVal.jstr _) => true
  | some JVal.jnull => false
  | some (JVal.jbool _) => false

/-- The rows selected by the WHERE clause of `get_next_orig_addr`:
`orig_addr > ? AND json_extract(kvstore,'$.type') != LINE`. -/
def nextOrigCandidates (s : DbState) (addr : Int) : List Int :=
  s.entities.filterMap (fun e =>
    match e.orig_addr with
    | some a =>
      if addr < a && sqlTypeNe (jext e.kvstore "type") EntityType.LINE then
        some a
      else none
    | none => none)

/-- Model of `EntityDb.get_next_orig_addr`: `SELECT orig_addr FROM entities WHERE
orig_addr > ? AND json_extract(kvstore,'$.type') != LINE ORDER BY orig_addr
LIMIT 1`. -/
def get_next_orig_addr (s : DbState) (addr : Int) : Option Int :=
  (nextOrigCandidates s addr).min?

/-- Generic association-list lookup (Python `dict.get`). -/
def assocGet {α β : Type} [BEq α] (l : List (α × β)) (k : α) : Option β :=
  match l with
  | [] => none
  | p :: rest => if p.1 == k then some p.2 else assocGet rest k

/-- Python dict assignment `d[k] = v` on a generic association list:
replace in place at the (unique) existing key, otherwise append. -/
def assocSet {α β : Type} [BEq α] (l : List (α × β)) (k : α) (v : β) :
    List (α × β) :=
  match l with
  | [] => [(k, v)]
  | p :: rest => if p.1 == k then (k, v) :: rest else p :: assocSet rest k v

/-- Python `dict.pop(k, None)` / `del d[k]`. -/
def assocErase {α β : Type} [BEq α] (l : List (α × β)) (k : α) :
    List (α × β) :=
  l.filter (fun p => !(p.1 == k))

/-- Stable insertion of an element into a sorted list: placed before the
first element it is `le`-related to, so equal elements keep their original
relative order. -/
def insertSorted {α : Type} (le : α → α → Bool) (a : α) : List α → List α
  | [] => [a]
  | b :: bs => if le a b then a :: b :: bs else b :: insertSorted le a bs

/-- Stable sort (insertion sort), modelling Python `list.sort` and SQL
ORDER BY. -/
def stableSort {α : Type} (le : α → α → Bool) : List α → List α
  | [] => []
  | a :: as => insertSorted le a (stableSort le as)

/-- Model of `EntityBatch`: the staging dictionaries, in Python insertion order. -/
structure EntityBatch where
  orig_insert : List (Int × KV)
  recomp_insert : List (Int × KV)
  labels : List ((Int × Int) × String)
  types : List ((Int × Int) × Int)
  orig_set : List (Int × KV)
  recomp_set : List (Int × KV)
  orig_to_recomp : List (Int × Int)
  recomp_to_orig : List (Int × Int)
  recomp_addr : List (Int × Int)
deriving DecidableEq, Repr

/-- Model of `EntityDb.batch()`: a fresh batch. -/
def EntityBatch.empty : EntityBatch := ⟨[], [], [], [], [], [], [], [], []⟩

/-- Shared tail of the four staging methods: `if kwargs.get("type"):` stages
into `_types` (the value is an `EntityType`, i.e. a nonzero integer) and
`if kwargs.get("name"):` stages into `_labels` (a nonempty string). -/
def stageTypeAndLabel (b : EntityBatch) (img addr : Int) (kwargs : KV) :
    EntityBatch :=
  let b :=
    if truthy (kvGet kwargs "type") then
      match kvGet kwargs "type" with
      | some (JVal.jint t) => { b with types := assocSet b.types (img, addr) t }
      | _ => b
    else b
  if truthy (kvGet kwargs "name") then
    match kvGet kwargs "name" with
    | some (JVal.jstr n) => { b with labels := assocSet b.labels (img, addr) n }
    | _ => b
  else b

/-- Model of `EntityBatch.insert_orig`: `self._orig_insert.setdefault(addr,
dict()).update(kwargs)` plus type/label staging. -/
def EntityBatch.insert_orig (b : EntityBatch) (addr : Int) (kwargs : KV) :
    EntityBatch :=
  let merged :=
    match assocGet b.orig_insert addr with
    | some old => kvUpdate old kwargs
    | none => kvUpdate [] kwargs
  stageTypeAndLabel { b with orig_insert := assocSet b.orig_insert addr merged }
    0 addr kwargs

/-- Model of `EntityBatch.insert_recomp`. -/
def EntityBatch.insert_recomp (b : EntityBatch) (addr : Int) (kwargs : KV) :
    EntityBatch :=
  let merged :=
    match assocGet b.recomp_insert addr with
    | some old => kvUpdate old kwargs
    | none => kvUpdate [] kwargs
  stageTypeAndLabel
    { b with recomp_insert := assocSet b.recomp_insert addr merged }
    1 addr kwargs

/-- Model of `EntityBatch.set_orig`. -/
def EntityBatch.set_orig (b : EntityBatch) (addr : Int) (kwargs : KV) :
    EntityBatch :=
  let merged :=
    match assocGet b.orig_set addr with
    | some old => kvUpdate old kwargs
    | none => kvUpdate [] kwargs
  stageTypeAndLabel { b with orig_set := assocSet b.orig_set addr merged }
    0 addr kwargs

/-- Model of `EntityBatch.set_recomp`. -/
def EntityBatch.set_recomp (b : EntityBatch) (addr : Int) (kwargs : KV) :
    EntityBatch :=
  let merged :=
    match assocGet b.recomp_set addr with
    | some old => kvUpdate old kwargs
    | none => kvUpdate [] kwargs
  stageTypeAndLabel { b with recomp_set := assocSet b.recomp_set addr merged }
    1 addr kwargs

/-- Model of `EntityBatch.match`: if the recomp address was already staged to a
different orig, drop that staged link first, then stage the new pair on
both maps. -/
def EntityBatch.stage_match (b : EntityBatch) (orig recomp : Int) :
    EntityBatch :=
  let b :=
    match assocGet b.recomp_to_orig recomp with
    | some used_orig =>
      { b with
          recomp_to_orig := assocErase b.recomp_to_orig recomp
          orig_to_recomp := assocErase b.orig_to_recomp used_orig }
    | none => b
  { b with
      orig_to_recomp := assocSet b.orig_to_recomp orig recomp
      recomp_to_orig := assocSet b.recomp_to_orig recomp orig }

/-- Model of `EntityBatch.set_recomp_addr`. -/
def EntityBatch.set_recomp_addr (b : EntityBatch) (orig recomp : Int) :
    EntityBatch :=
  { b with recomp_addr := assocSet b.recomp_addr orig recomp }

/-- Model of `INSERT OR REPLACE INTO types (img, addr, type)` over the staged dict. -/
def insertOrReplaceTypes (tbl : List ((Int × Int) × Int))
    (rows : List ((Int × Int) × Int)) : List ((Int × Int) × Int) :=
  rows.foldl (fun acc r => assocSet acc r.1 r.2) tbl

/-- Model of `INSERT OR REPLACE INTO labels (img, addr, label)` over the staged dict. -/
def insertOrReplaceLabels (tbl : List ((Int × Int) × String))
    (rows : List ((Int × Int) × String)) : List ((Int × Int) × String) :=
  rows.foldl (fun acc r => assocSet acc r.1 r.2) tbl

/-- The in-transaction entity-table writes of `EntityBatch.commit`, in
order: plain inserts, upserts, then `bulk_match`.  `commit()` opens
`with self.base.sql:` and applies the staged operations in this order;
`EntityDb.bulk_match` contains its own `with self._sql:` block, and Python
sqlite3 connection context managers do not nest, so when `bulk_match` is
reached its exit point *commits* everything applied so far. -/
def commitStage1 (b : EntityBatch) (es0 : List Entity) : List Entity :=
  let es1 := if b.orig_insert != [] then
      bulk_orig_insert false es0 b.orig_insert else es0
  let es2 := if b.recomp_insert != [] then
      bulk_recomp_insert false es1 b.recomp_insert else es1
  let es3 := if b.orig_set != [] then
      bulk_orig_insert true es2 b.orig_set else es2
  let es4 := if b.recomp_set != [] then
      bulk_recomp_insert true es3 b.recomp_set else es3
  if b.orig_to_recomp != [] then bulk_match es4 b.orig_to_recomp else es4

/-- Model of `EntityBatch.commit` itself: run the entity-table stages; when
`bulk_match` ran, its exit point has already committed everything up to
there, so a constraint violation in the recomp-addr updates rolls back
only to that intermediate state and the error propagates; otherwise the
index tables are written (both guarded by `if self._types:`) and the outer
context manager commits. -/
def EntityBatch.commit (b : EntityBatch) (s : DbState) :
    DbState × Option String :=
  let es5 := commitStage1 b s.entities
  -- the last state committed before the recomp-addr updates run
  let lastCommitted := if b.orig_to_recomp != [] then
      { s with entities := es5 } else s
  match (if b.recomp_addr != [] then bulk_set_recomp_addr es5 b.recomp_addr
         else Except.ok es5) with
  | Except.error e => (lastCommitted, some e)
  | Except.ok es6 =>
    let types1 := if b.types != [] then insertOrReplaceTypes s.types b.types
        else s.types
    -- source guards the labels insert with `if self._types:` as well
    let labels1 := if b.types != [] then insertOrReplaceLabels s.labels b.labels
        else s.labels
    ({ entities := es6, labels := labels1, types := types1 }, none)

/-- The `orig_unmatched` view: `SELECT orig_addr, kvstore FROM entities
WHERE orig_addr is not null and recomp_addr is null ORDER by orig_addr`. -/
def orig_unmatched (s : DbState) : List (Int × KV) :=
  stableSort (fun x y => decide (x.1 ≤ y.1))
    (s.entities.filterMap (fun e =>
      match e.orig_addr, e.recomp_addr with
      | some a, none => some (a, e.kvstore)
      | _, _ => none))

/-- The `recomp_unmatched` view, ordered by recomp address. -/
def recomp_unmatched (s : DbState) : List (Int × KV) :=
  stableSort (fun x y => decide (x.1 ≤ y.1))
    (s.entities.filterMap (fun e =>
      match e.orig_addr, e.recomp_addr with
      | none, some a => some (a, e.kvstore)
      | _, _ => none))

/-- The `matched0` view: orig addresses of fully matched entities. -/
def matched0 (s : DbState) : List Int :=
  s.entities.filterMap (fun e =>
    match e.orig_addr, e.recomp_addr with
    | some a, some _ => some a
    | _, _ => none)

/-- The `matched1` view: recomp addresses of fully matched entities. -/
def matched1 (s : DbState) : List Int :=
  s.entities.filterMap (fun e =>
    match e.orig_addr, e.recomp_addr with
    | some _, some a => some a
    | _, _ => none)

/-- Model of `EntityIndex` from `match_msvc.py`: one-to-many map from string to
addresses, in insertion order. -/
abbrev EntityIndex := List (String × List Int)

/-- Model of `EntityIndex.__contains__`. -/
def ixContains (ix : EntityIndex) (k : String) : Bool :=
  ix.any (fun p => p.1 == k)

/-- Model of `EntityIndex.add`: `self._dict.setdefault(key, []).append(value)`. -/
def ixAdd (ix : EntityIndex) (k : String) (v : Int) : EntityIndex :=
  match assocGet ix k with
  | some l => assocSet ix k (l ++ [v])
  | none => ix ++ [(k, [v])]

/-- Model of `EntityIndex.pop`: `value = self._dict[key].pop(0)`, deleting the key
when its list becomes empty.  Callers always guard with `__contains__`. -/
def ixPop (ix : EntityIndex) (k : String) : Option (Int × EntityIndex) :=
  match assocGet ix k with
  | some (v :: rest) =>
    some (v, if rest == [] then assocErase ix k else assocSet ix k rest)
  | _ => none

/-- Truncation applied in `match_symbols`: `symbol[:255]` when
`truncate=True`. -/
def truncSym (truncate : Bool) (s : String) : String :=
  if truncate then ⟨s.toList.take 255⟩ else s

/-- Model of `match_symbols` (`match_msvc.py`): build the symbol index from the
unmatched recomp side, then for each unmatched orig entity with a symbol
pop the first indexed recomp address; report NON_UNIQUE_SYMBOL if
candidates remain after the pop and NO_MATCH if there was none.  The SELECT
keeps rows `where symbol is not null`; symbols are strings.  Returns the
committed state and the reported events.
First, the symbol projection shared by both sides of the pass. -/
def symRows (view : List (Int × KV)) (truncate : Bool) :
    List (Int × String) :=
  view.filterMap (fun p =>
    match jext p.2 "symbol" with
    | some (JVal.jstr sym) => some (p.1, truncSym truncate sym)
    | _ => none)

/-- One iteration of the `match_symbols` loop over an unmatched orig row
`(orig_addr, symbol)`. -/
def symStepImpl (acc : EntityIndex × EntityBatch × List Event)
    (row : Int × String) : EntityIndex × EntityBatch × List Event :=
  match ixPop acc.1 row.2 with
  | some (recomp_addr, ix1) =>
    let evs :=
      if ixContains ix1 row.2 then
        acc.2.2 ++ [⟨EventKind.NON_UNIQUE_SYMBOL, row.1,
          "Matched " ++ hexStr row.1 ++ " using non-unique symbol \x27"
            ++ row.2 ++ "\x27"⟩]
      else acc.2.2
    (ix1, acc.2.1.stage_match row.1 recomp_addr, evs)
  | none =>
    (acc.1, acc.2.1, acc.2.2 ++ [⟨EventKind.NO_MATCH, row.1,
      "Failed to match at " ++ hexStr row.1 ++ " with symbol \x27"
        ++ row.2 ++ "\x27"⟩])

def match_symbols (s : DbState) (truncate : Bool) : DbState × List Event :=
  let ix : EntityIndex :=
    (symRows (recomp_unmatched s) truncate).foldl
      (fun acc p => ixAdd acc p.2 p.1) []
  let res := (symRows (orig_unmatched s) truncate).foldl symStepImpl
    (ix, EntityBatch.empty, [])
  ((res.2.1.commit s).1, res.2.2)

/-- sqlite `substr(label, 0, 255)`: positions before 1 exist conceptually,
so this yields the first 254 characters. -/
def substr_0_255 (s : String) : String := ⟨s.toList.take 254⟩

/-- The `candidates` CTE of `get_matches_for_type_and_label` restricted to
one image, yielding `(addr, label, type)` triples.  The WHERE clause is
`t.type is null or t.type = ? AND (l.addr not in matchedN)`: by SQL
operator precedence the unmatched test only applies to the typed branch,
so an untyped label is a candidate even at a matched address. -/
def label_candidates (s : DbState) (etype : Int) (truncate : Bool)
    (img : Int) : List (Int × String × Option Int) :=
  s.labels.filterMap (fun r =>
    if r.1.1 == img then
      let lab := if truncate then substr_0_255 r.2 else r.2
      let t := assocGet s.types r.1
      if t == none
          || (t == some etype
              && !((if img == 0 then matched0 s else matched1 s).contains
                r.1.2)) then
        some (r.1.2, lab, t)
      else none
    else none)

/-- Model of `row_number() over (partition by l.img, l.label order by l.addr)` for a
candidate, within one image's candidate list (`(img, addr)` is the primary
key of `labels`, so addresses within one image are distinct). -/
def candNth (cands : List (Int × String × Option Int))
    (c : Int × String × Option Int) : Nat :=
  1 + (cands.filter (fun d => d.2.1 == c.2.1 && d.1 < c.1)).length

/-- Model of `count(l.label) over (partition by l.img, l.label)` for a candidate. -/
def candCnt (cands : List (Int × String × Option Int))
    (c : Int × String × Option Int) : Nat :=
  (cands.filter (fun d => d.2.1 == c.2.1)).length

/-- Model of `get_matches_for_type_and_label`: join the two candidate sides on equal
label and equal occurrence rank, keeping pairs where at least one side has
a type (`coalesce(x.type, y.type) IS NOT NULL`); the flag is
`x.cnt = 1 and y.cnt = 1`. -/
def get_matches_for_type_and_label (s : DbState) (etype : Int)
    (truncate : Bool) : List (Int × Int × String × Bool) :=
  let xs := label_candidates s etype truncate 0
  let ys := label_candidates s etype truncate 1
  xs.foldl (fun acc x =>
    acc ++ ys.filterMap (fun y =>
      if x.2.1 == y.2.1 && candNth xs x == candNth ys y
          && !(x.2.2 == none && y.2.2 == none) then
        some (x.1, y.1, x.2.1,
          candCnt xs x == 1 && candCnt ys y == 1)
      else none)) []

/-- Model of `match_functions`: run the positional label query for FUNCTION, report
AMBIGUOUS_MATCH for each pairing whose flag is false, and stage the match
regardless.  Returns the committed state and the events. -/
def match_functions (s : DbState) (truncate : Bool) : DbState × List Event :=
  let rows := get_matches_for_type_and_label s EntityType.FUNCTION truncate
  let res := rows.foldl
    (fun (acc : EntityBatch × List Event) row =>
      let (b, evs) := acc
      let evs :=
        if !row.2.2.2 then
          evs ++ [⟨EventKind.AMBIGUOUS_MATCH, row.1,
            "Ambiguous match " ++ hexStr row.1 ++ " on name \x27"
              ++ row.2.2.1 ++ "\x27"⟩]
        else evs
      (b.stage_match row.1 row.2.1, evs))
    (EntityBatch.empty, [])
  ((res.1.commit s).1, res.2)

/-- SQL LIKE matching (`%` matches any sequence — equivalently, some
suffix of the text matches the rest of the pattern — and `_` matches any
single character). -/
def likeMatch : List Char → List Char → Bool
  | [], str => str == []
  | c :: prest, str =>
    if c = '%' then str.tails.any (fun t => likeMatch prest t)
    else if c = '_' then
      match str with
      | [] => false
      | _ :: srest => likeMatch prest srest
    else
      match str with
      | [] => false
      | d :: srest => c == d && likeMatch prest srest

/-- Lowercased character content of a string, the form both sides of a
sqlite LIKE comparison are reduced to (sqlite LIKE is case-insensitive for
ASCII). -/
def lowerChars (s : String) : List Char := s.toList.map Char.toLower

/-- Model of `X LIKE pattern` on strings, lowercasing both sides as sqlite does for
ASCII. -/
def sqlLike (str pattern : String) : Bool :=
  likeMatch (lowerChars pattern) (lowerChars str)

/-- Model of `match_static_variables`: for each unmatched orig row with
`static_var = 1` and a name, left-join the parent function by orig address;
without a function symbol report NO_MATCH (first message form); otherwise
take the first unmatched recomp row (ascending recomp address) whose type
is DATA or unset and whose symbol matches
`LIKE '%' || name || '%' || function_symbol || '%'`, else report NO_MATCH
(second message form). -/
def staticVarStep (s : DbState) (acc : EntityBatch × List Event)
    (v : Int × String × KV) : EntityBatch × List Event :=
  let b := acc.1
  let evs := acc.2
  let func : Option Entity :=
    match jext v.2.2 "parent_function" with
    | some (JVal.jint pf) =>
      s.entities.find? (fun e => e.orig_addr == some pf)
    | _ => none
  let function_symbol : Option String :=
    func.bind (fun e =>
      match jext e.kvstore "symbol" with
      | some (JVal.jstr sym) => some sym
      | _ => none)
  let function_name : Option String :=
    func.bind (fun e =>
      match jext e.kvstore "name" with
      | some (JVal.jstr n) => some n
      | _ => none)
  match function_symbol with
  | none =>
    (b, evs ++ [⟨EventKind.NO_MATCH, v.1,
      "No function for static variable \x27" ++ v.2.1 ++ "\x27"⟩])
  | some fsym =>
    let cands : List Int :=
      (recomp_unmatched s).filterMap (fun p =>
        if (jext p.2 "type" == some (JVal.jint EntityType.DATA)
              || jext p.2 "type" == none)
            && (match jext p.2 "symbol" with
                | some (JVal.jstr sym) =>
                  sqlLike sym ("%" ++ v.2.1 ++ "%" ++ fsym ++ "%")
                | _ => false) then
          some p.1
        else none)
    match cands.head? with
    | some recomp_addr => (b.stage_match v.1 recomp_addr, evs)
    | none =>
      (b, evs ++ [⟨EventKind.NO_MATCH, v.1,
        "Failed to match static variable " ++ v.2.1 ++ " from function "
          ++ (function_name.getD "None") ++ " annotated with "
          ++ hexStr v.1⟩])

/-- The loop of `match_static_variables` over the variable rows, followed
by the batch commit. -/
def match_static_variables (s : DbState) : DbState × List Event :=
  let vars : List (Int × String × KV) :=
    (orig_unmatched s).filterMap (fun p =>
      if jext p.2 "static_var" == some (JVal.jint 1) then
        match jext p.2 "name" with
        | some (JVal.jstr n) => some (p.1, n, p.2)
        | _ => none
      else none)
  let res := vars.foldl (staticVarStep s) (EntityBatch.empty, [])
  ((res.1.commit s).1, res.2)

/-- A pure path, modelled as its list of components (`PurePath.parts`);
path-string parsing is delegated to this representation. -/
abbrev PPath := List String

/-- Model of `PurePath.name`: the final component. -/
def pathName (p : PPath) : String := p.getLast?.getD ""

/-- Model of `path_to_reverse_parts` (`lines.py`): lowercased parts, reversed. -/
def path_to_reverse_parts (p : PPath) : List String :=
  (p.map strLower).reverse

/-- The scoring loop of `score_match`: count equal leading reverse parts,
stopping at a mismatch or at a `.` or `..` component. -/
def scoreParts : List String → List String → Int
  | rp :: rs, lp :: ls =>
    if rp == lp && rp != "." && rp != ".." && lp != "." && lp != ".." then
      1 + scoreParts rs ls
    else 0
  | _, _ => 0

/-- Model of `score_match(remote_path, local_path)`. -/
def score_match (remote localPath : PPath) : Int :=
  scoreParts (path_to_reverse_parts remote) (path_to_reverse_parts localPath)

/-- Rendering used to compare pure paths, mirroring Python tuple comparison
`(score, PurePath)` which falls back to the path string. -/
def pathStr (p : PPath) : String := String.intercalate "/" p

/-- Model of `scored.sort(reverse=True)` comparison: descending on
`(score, path string)`. -/
def scoredGe (a b : Int × PPath) : Bool :=
  b.1 < a.1 || (a.1 == b.1 && decide (pathStr b.2 ≤ pathStr a.2))

/-- Model of `purepath_to_path(remote_path, local_paths)`: score every local path
against the remote one, sort descending, and return the unique best match
(score strictly above the runner-up, or a positive score when there is only
one candidate). -/
def purepath_to_path (remote : PPath) (locals : List PPath) : Option PPath :=
  let scored := stableSort scoredGe (locals.map (fun p => (score_match remote p, p)))
  match scored with
  | (ts, tp) :: (ns, _) :: _ => if ns < ts then some tp else none
  | [(ts, tp)] => if 0 < ts then some tp else none
  | [] => none

/-- Model of `LinesDb` state: the resolved code files, the filename index, the
per-file (line, address) pairs, and the set of function start addresses. -/
structure LinesDb where
  code_files : List PPath
  filenames : List (String × List PPath)
  map : List (PPath × List (Int × Int))
  functions : List Int
deriving DecidableEq, Repr

/-- Model of `LinesDb.__init__(code_files)`: index the code files by lowercased
final component. -/
def LinesDb.init (code_files : List PPath) : LinesDb :=
  let filenames := code_files.foldl
    (fun acc p =>
      let key := strLower (pathName p)
      match assocGet acc key with
      | some l => assocSet acc key (l ++ [p])
      | none => acc ++ [(key, [p])])
    []
  ⟨code_files, filenames, [], []⟩

/-- Model of `LinesDb.add_lines(filename, lines)`: resolve the remote filename
against the indexed local paths; unresolvable filenames are silently
dropped; the winning local path accumulates the pairs. -/
def LinesDb.add_lines (db : LinesDb) (filename : PPath)
    (lines : List (Int × Int)) : LinesDb :=
  match assocGet db.filenames (strLower (pathName filename)) with
  | none => db
  | some candidates =>
    match purepath_to_path filename candidates with
    | none => db
    | some sourcepath =>
      match assocGet db.map sourcepath with
      | some old => { db with map := assocSet db.map sourcepath (old ++ lines) }
      | none => { db with map := db.map ++ [(sourcepath, lines)] }

/-- Model of `LinesDb.add_function_starts(addrs)`: set update. -/
def LinesDb.add_function_starts (db : LinesDb) (addrs : List Int) : LinesDb :=
  { db with
      functions := addrs.foldl
        (fun l a => if l.contains a then l else l ++ [a]) db.functions }

/-- Model of `LinesDb.search_line(path, line_start, line_end=None)`: keep only pairs
whose address is a known function start (the source memoizes this
`functions_map` on first call; no mutation interleaves in the modelled
scenarios, so it is recomputed here), default `line_end` to `line_start`,
and return the address of the unique function-start line in
`[line_start, line_end]`; `None` when the file is unknown, no line
qualifies, or more than one does. -/
def LinesDb.search_line (db : LinesDb) (path : PPath) (line_start : Int)
    (line_end : Option Int := none) : Option Int :=
  let functions_map := db.map.map (fun p =>
    (p.1, p.2.filter (fun la => db.functions.contains la.2)))
  let lineEnd := line_end.getD line_start
  match assocGet functions_map path with
  | none => none
  | some lines =>
    let sorted := stableSort (fun a b =>
      decide (a.1 < b.1) || (a.1 == b.1 && decide (a.2 ≤ b.2))) lines
    let possible := (sorted.filter (fun la =>
      line_start ≤ la.1 && la.1 ≤ lineEnd)).map (·.2)
    match possible with
    | [a] => some a
    | _ => none

/-- Model of `match_lines` (`match_msvc.py`): iterates the unmatched LINE-type orig
rows and runs `for recomp_addr in lines.search_line(filename, line + 1)`.
`LinesDb.search_line` is annotated and implemented to return
`int | None`; neither an `int` nor `None` is iterable, so the `for`
statement raises `TypeError` on the first row (whatever `search_line`
returns), the batch context manager resets without committing, and the
exception propagates.  With no LINE-type row the loop body never runs and
the empty batch commits. -/
def match_lines (s : DbState) (_lines : LinesDb) :
    Except String (DbState × List Event) :=
  let rows : List (Int × Option JVal × Option JVal) :=
    (orig_unmatched s).filterMap (fun p =>
      if jext p.2 "type" == some (JVal.jint EntityType.LINE) then
        some (p.1, jext p.2 "filename", jext p.2 "line")
      else none)
  match rows with
  | [] => Except.ok ((EntityBatch.empty.commit s).1, [])
  | _ :: _ => Except.error "TypeError: object is not iterable"

/-- The non-null orig addresses of a row list, in row order. -/
def origsOf (es : List Entity) : List Int := es.filterMap (·.orig_addr)

/-- The non-null recomp addresses of a row list, in row order. -/
def recompsOf (es : List Entity) : List Int := es.filterMap (·.recomp_addr)

/-- The address-uniqueness invariant of the `entities` table: no two rows
share a set orig address and no two rows share a set recomp address. -/
def Uniq (es : List Entity) : Prop :=
  (origsOf es).Nodup ∧ (recompsOf es).Nodup

/-- Two rows do not share a set orig address. -/
def ONe (a b : Entity) : Prop :=
  ∀ x ∈ a.orig_addr, ∀ y ∈ b.orig_addr, x ≠ y

/-- Two rows do not share a set recomp address. -/
def RNe (a b : Entity) : Prop :=
  ∀ x ∈ a.recomp_addr, ∀ y ∈ b.recomp_addr, x ≠ y

/-- The store mutations reachable through the public API: single-row
ingestion inserts (`set_orig_symbol` / `set_recomp_symbol`), a batch
commit (all matching passes mutate only through one), `set_pair`, and the
matching passes themselves. -/
inductive DbOp where
  | insert_orig (addr : Int) (kv : KV) : DbOp
  | insert_recomp (addr : Int) (kv : KV) : DbOp
  | batch_commit (b : EntityBatch) : DbOp
  | do_set_pair (o r : Int) (t : Option Int) : DbOp
  | run_match_symbols (truncate : Bool) : DbOp
  | run_match_functions (truncate : Bool) : DbOp
  | run_match_static_variables : DbOp
  | run_match_lines (ldb : LinesDb) : DbOp

/-- Apply one mutation; a failed `match_lines` leaves the store as the
batch context manager found it. -/
def applyOp (s : DbState) (op : DbOp) : DbState :=
  match op with
  | DbOp.insert_orig a kv =>
    { s with entities := bulk_orig_insert false s.entities [(a, kv)] }
  | DbOp.insert_recomp a kv =>
    { s with entities := bulk_recomp_insert false s.entities [(a, kv)] }
  | DbOp.batch_commit b => (b.commit s).1
  | DbOp.do_set_pair o r t => (set_pair s o r t).1
  | DbOp.run_match_symbols t => (match_symbols s t).1
  | DbOp.run_match_functions t => (match_functions s t).1
  | DbOp.run_match_static_variables => (match_static_variables s).1
  | DbOp.run_match_lines ldb =>
    match match_lines s ldb with
    | Except.ok res => res.1
    | Except.error _ => s

/-- Run a sequence of mutations from the empty store. -/
def runOps (ops : List DbOp) : DbState := ops.foldl applyOp DbState.empty

/-- The claim reading of `EntityIndex.pop` in `match_symbols`: remove and
return the *lowest remaining address* mapped to the symbol. -/
def ixPopMin (ix : EntityIndex) (k : String) : Option (Int × EntityIndex) :=
  match assocGet ix k with
  | some l =>
    match l.min? with
    | some v =>
      some (v, if l.erase v == [] then assocErase ix k
               else assocSet ix k (l.erase v))
    | none => none
  | none => none

/-- One iteration of the loop as the claim reads it: pop the lowest
remaining address for the symbol. -/
def symStepSpec (acc : EntityIndex × EntityBatch × List Event)
    (row : Int × String) : EntityIndex × EntityBatch × List Event :=
  match ixPopMin acc.1 row.2 with
  | some (recomp_addr, ix1) =>
    let evs :=
      if ixContains ix1 row.2 then
        acc.2.2 ++ [⟨EventKind.NON_UNIQUE_SYMBOL, row.1,
          "Matched " ++ hexStr row.1 ++ " using non-unique symbol \x27"
            ++ row.2 ++ "\x27"⟩]
      else acc.2.2
    (ix1, acc.2.1.stage_match row.1 recomp_addr, evs)
  | none =>
    (acc.1, acc.2.1, acc.2.2 ++ [⟨EventKind.NO_MATCH, row.1,
      "Failed to match at " ++ hexStr row.1 ++ " with symbol \x27"
        ++ row.2 ++ "\x27"⟩])

/-- Model of `match_symbols` as the claim states it: for each unmatched orig entity
carrying a symbol, pair it with the first (lowest-address) unmatched recomp
entity carrying the same symbol, popping it from the symbol index; report
NON_UNIQUE_SYMBOL when further candidates remain after the pop and NO_MATCH
when no candidate exists. -/
def match_symbols_claim (s : DbState) (truncate : Bool) :
    DbState × List Event :=
  let ix : EntityIndex :=
    (symRows (recomp_unmatched s) truncate).foldl
      (fun acc p => ixAdd acc p.2 p.1) []
  let res := (symRows (orig_unmatched s) truncate).foldl symStepSpec
    (ix, EntityBatch.empty, [])
  ((res.2.1.commit s).1, res.2.2)

/-- An index all of whose candidate lists are sorted ascending. -/
def IxSorted (ix : EntityIndex) : Prop :=
  ∀ k l, assocGet ix k = some l → l.Pairwise (fun x y : Int => x ≤ y)

/-- One staging call on an `EntityBatch`. -/
inductive BatchCall where
  | ins_orig (addr : Int) (kwargs : KV) : BatchCall
  | ins_recomp (addr : Int) (kwargs : KV) : BatchCall
  | s_orig (addr : Int) (kwargs : KV) : BatchCall
  | s_recomp (addr : Int) (kwargs : KV) : BatchCall
  | pair (o r : Int) : BatchCall
  | raddr (o r : Int) : BatchCall

/-- Apply one staging call. -/
def applyCall (b : EntityBatch) (c : BatchCall) : EntityBatch :=
  match c with
  | BatchCall.ins_orig a kw => b.insert_orig a kw
  | BatchCall.ins_recomp a kw => b.insert_recomp a kw
  | BatchCall.s_orig a kw => b.set_orig a kw
  | BatchCall.s_recomp a kw => b.set_recomp a kw
  | BatchCall.pair o r => b.stage_match o r
  | BatchCall.raddr o r => b.set_recomp_addr o r

/-- Build a batch from a call sequence, as a pass does. -/
def buildBatch (cs : List BatchCall) : EntityBatch :=
  cs.foldl applyCall EntityBatch.empty

/-- Whether a staging call supplies a (truthy) entity type. -/
def callHasType (c : BatchCall) : Bool :=
  match c with
  | BatchCall.ins_orig _ kw => truthy (kvGet kw "type")
  | BatchCall.ins_recomp _ kw => truthy (kvGet kw "type")
  | BatchCall.s_orig _ kw => truthy (kvGet kw "type")
  | BatchCall.s_recomp _ kw => truthy (kvGet kw "type")
  | _ => false

/-- Wildcard-free character list: no LIKE metacharacter occurs. -/
def wildFree (l : List Char) : Bool :=
  l.all (fun c => !(c == '%') && !(c == '_'))

/-- Ordered containment, the claim-side reading of the static-variable
LIKE test: the symbol contains (case-insensitively) an occurrence of the
variable name followed by an occurrence of the function symbol. -/
def ContainsInOrderCI (sym n f : String) : Prop :=
  ∃ u v w, lowerChars sym = u ++ lowerChars n ++ v ++ lowerChars f ++ w

/-- C1 example batch: one staged match plus one staged recomp-addr
association whose target recomp address is already in use. -/
def exBatchC1 : EntityBatch :=
  (EntityBatch.empty.stage_match 1 2).set_recomp_addr 3 5

/-- C1 example store: unmatched orig 1 and 3, unmatched recomp 2 and 5. -/
def exStoreC1 : DbState :=
  ⟨[⟨some 1, none, []⟩, ⟨none, some 2, []⟩, ⟨some 3, none, []⟩,
    ⟨none, some 5, []⟩], [], []⟩

/-- C3 example store: recomp 2 already committed as matched to orig 1;
orig 3 unmatched. -/
def exStoreC3 : DbState :=
  ⟨[⟨some 1, some 2, []⟩, ⟨some 3, none, []⟩], [], []⟩

/-- C4 example store: orig 0x1000 and recomp 0x2000, both with symbol
FOO. -/
def exStoreC4 : DbState :=
  ⟨[⟨some 0x1000, none, [("symbol", JVal.jstr "FOO")]⟩,
    ⟨none, some 0x2000, [("symbol", JVal.jstr "FOO")]⟩], [], []⟩

/-- C5 counterexample store: orig label Foo at 0x10 untyped and at 0x20
with FUNCTION type; recomp label Foo at 0x90 with FUNCTION type.  All
labels and types committed to the index tables. -/
def exStoreC5 : DbState :=
  ⟨[⟨some 0x10, none, [("name", JVal.jstr "Foo")]⟩,
    ⟨some 0x20, none,
      [("name", JVal.jstr "Foo"), ("type", JVal.jint EntityType.FUNCTION)]⟩,
    ⟨none, some 0x90,
      [("name", JVal.jstr "Foo"), ("type", JVal.jint EntityType.FUNCTION)]⟩],
   [((0, 0x10), "Foo"), ((0, 0x20), "Foo"), ((1, 0x90), "Foo")],
   [((0, 0x20), EntityType.FUNCTION), ((1, 0x90), EntityType.FUNCTION)]⟩

/-- C5 positive example store from the claim: orig Bar at 0x10 and 0x20,
recomp Bar at 0x90 and 0xA0, all FUNCTION-typed. -/
def exStoreC5b : DbState :=
  ⟨[⟨some 0x10, none,
      [("name", JVal.jstr "Bar"), ("type", JVal.jint EntityType.FUNCTION)]⟩,
    ⟨some 0x20, none,
      [("name", JVal.jstr "Bar"), ("type", JVal.jint EntityType.FUNCTION)]⟩,
    ⟨none, some 0x90,
      [("name", JVal.jstr "Bar"), ("type", JVal.jint EntityType.FUNCTION)]⟩,
    ⟨none, some 0xA0,
      [("name", JVal.jstr "Bar"), ("type", JVal.jint EntityType.FUNCTION)]⟩],
   [((0, 0x10), "Bar"), ((0, 0x20), "Bar"),
    ((1, 0x90), "Bar"), ((1, 0xA0), "Bar")],
   [((0, 0x10), EntityType.FUNCTION), ((0, 0x20), EntityType.FUNCTION),
    ((1, 0x90), EntityType.FUNCTION), ((1, 0xA0), EntityType.FUNCTION)]⟩

/-- C6 example store: one unmatched LINE-type orig entity with filename
and line attributes. -/
def exStoreC6 : DbState :=
  ⟨[⟨some 0x500, none,
      [("type", JVal.jint EntityType.LINE),
       ("filename", JVal.jstr "a.cpp"), ("line", JVal.jint 10)]⟩], [], []⟩

/-- C7 counterexample store: a single orig entity at 0x10 with no type
attribute. -/
def exStoreC7 : DbState :=
  ⟨[⟨some 0x10, none, [("name", JVal.jstr "x")]⟩], [], []⟩

/-- C8 example LinesDb: code file a.cpp, lines (10, 0x100) and
(15, 0x200), function starts at 0x200 only. -/
def exLinesC8 : LinesDb :=
  ((LinesDb.init [["a.cpp"]]).add_lines ["a.cpp"]
    [(10, 0x100), (15, 0x200)]).add_function_starts [0x200]

/-- C9 counterexample store: the unmatched recomp entity's symbol contains
both the variable name and the parent function symbol as substrings, but
with the function symbol *before* the name. -/
def exStoreC9 : DbState :=
  ⟨[⟨some 0x100, none,
      [("symbol", JVal.jstr "?Tick@IsleApp@@QAEXH@Z"),
       ("name", JVal.jstr "Tick")]⟩,
    ⟨some 0x200, none,
      [("name", JVal.jstr "counter"), ("static_var", JVal.jbool true),
       ("parent_function", JVal.jint 0x100)]⟩,
    ⟨none, some 0x300,
      [("type", JVal.jint EntityType.DATA),
       ("symbol", JVal.jstr "?Tick@IsleApp@@QAEXH@Zcounter")]⟩], [], []⟩

/-- C9 positive example store (the docstring convention): the recomp
symbol embeds the name and then the function symbol. -/
def exStoreC9b : DbState :=
  ⟨[⟨some 0x100, none,
      [("symbol", JVal.jstr "?Tick@IsleApp@@QAEXH@Z"),
       ("name", JVal.jstr "Tick")]⟩,
    ⟨some 0x200, none,
      [("name", JVal.jstr "counter"), ("static_var", JVal.jbool true),
       ("parent_function", JVal.jint 0x100)]⟩,
    ⟨none, some 0x300,
      [("type", JVal.jint EntityType.DATA),
       ("symbol", JVal.jstr "?counter@?1??Tick@IsleApp@@QAEXH@Z@4HA")]⟩],
   [], []⟩

/-- C9 example store with an unresolvable parent function: the variable's
parent_function points at no entity. -/
def exStoreC9c : DbState :=
  ⟨[⟨some 0x200, none,
      [("name", JVal.jstr "counter"), ("static_var", JVal.jbool true),
       ("parent_function", JVal.jint 0x100)]⟩], [], []⟩

instance : Std.Antisymm (fun (a b : Int) => a ≤ b) where
  antisymm h h2 := le_antisymm h h2

/-- C10 witness call sequence: one `set_orig` supplying a name and no
type. -/
def exCallsC10 : List BatchCall :=
  [BatchCall.s_orig 5 [("name", JVal.jstr "X")]]

theorem assocGet_assocSet_self {α β : Type} [BEq α] [LawfulBEq α]
    (l : List (α × β)) (k : α) (v : β) :
    assocGet (assocSet l k v) k = some v := by
  induction l with
  | nil => simp [assocGet, assocSet]
  | cons p rest ih =>
    by_cases hp : p.1 == k
    · simp [assocGet, assocSet, hp]
    · simp only [assocSet, if_neg hp, assocGet, hp, if_false]
      exact ih

theorem assocGet_assocSet_ne {α β : Type} [BEq α] [LawfulBEq α]
    (l : List (α × β)) (k k2 : α) (v : β) (h : ¬(k2 = k)) :
    assocGet (assocSet l k v) k2 = assocGet l k2 := by
  have hkk2 : ¬(k == k2) = true := by
    simpa using fun hc => h (eq_of_beq hc).symm
  induction l with
  | nil => simp [assocGet, assocSet, hkk2]
  | cons p rest ih =>
    by_cases hp : p.1 == k
    · have hp2 : ¬(p.1 == k2) = true := by
        intro hc
        exact h (by rw [← eq_of_beq hc, eq_of_beq hp])
      simp only [assocSet, if_pos hp, assocGet, hkk2, if_false, hp2]
      rfl
    · by_cases hp2 : p.1 == k2
      · simp only [assocSet, if_neg hp, assocGet, hp2, if_true]
      · simp only [assocSet, if_neg hp, assocGet, hp2, if_false]
        exact ih

theorem assocGet_assocErase_self {α β : Type} [BEq α] [LawfulBEq α]
    (l : List (α × β)) (k : α) :
    assocGet (assocErase l k) k = none := by
  induction l with
  | nil => rfl
  | cons p rest ih =>
    by_cases hp : p.1 == k
    · unfold assocErase
      rw [List.filter_cons_of_neg (by simpa using hp)]
      exact ih
    · unfold assocErase
      rw [List.filter_cons_of_pos (by simpa using hp)]
      simp only [assocGet, hp, if_false]
      exact ih

theorem assocGet_assocErase_ne {α β : Type} [BEq α] [LawfulBEq α]
    (l : List (α × β)) (k k2 : α) (h : ¬(k2 = k)) :
    assocGet (assocErase l k) k2 = assocGet l k2 := by
  induction l with
  | nil => rfl
  | cons p rest ih =>
    by_cases hpk : p.1 == k
    · have hpk2 : ¬(p.1 == k2) = true := by
        intro hc
        exact h (by rw [← eq_of_beq hc, eq_of_beq hpk])
      unfold assocErase
      rw [List.filter_cons_of_neg (by simpa using hpk)]
      simp only [assocGet, hpk2, if_false]
      exact ih
    · unfold assocErase
      rw [List.filter_cons_of_pos (by simpa using hpk)]
      by_cases hpk2 : p.1 == k2
      · simp only [assocGet, hpk2, if_true]
      · simp only [assocGet, hpk2, if_false]
        exact ih

/-- C1: the claim says a mid-commit failure rolls the whole batch back,
leaving the store exactly as before `commit()`.  In the code, `bulk_match`
runs inside its own `with self._sql:` block nested in the one opened by
`commit()`; sqlite3 connection context managers do not nest, so the inner
exit commits the work done so far.  When the staged recomp-addr
association then violates the `recomp_addr` uniqueness constraint, the
rollback only reaches that intermediate commit: the staged match (1, 2)
stays applied and the store differs from its pre-commit state while the
error propagates. -/
theorem commit_partial_apply_on_failure :
    (exBatchC1.commit exStoreC1).2 =
        some "UNIQUE constraint failed: entities.recomp_addr" ∧
      (exBatchC1.commit exStoreC1).1 ≠ exStoreC1 ∧
      get_by_recomp (exBatchC1.commit exStoreC1).1 2 =
        some ⟨some 1, some 2, []⟩ := by
  decide

/-- C6: the claim says a no-match outcome in `match_lines` reports
NO_MATCH and continues.  In the code,
`for recomp_addr in lines.search_line(filename, line + 1)` iterates the
result of `search_line`, which is annotated and implemented to return
`int | None`; neither value is iterable, so the pass raises `TypeError`
on the first unmatched LINE-type entity — for every LinesDb, including
one where no function matches. -/
theorem match_lines_raises_on_line_entity :
    ∀ ldb : LinesDb, match_lines exStoreC6 ldb =
      Except.error "TypeError: object is not iterable" :=
  fun _ => rfl

/-- C8 counterexample: with lines (10, 0x100) and (15, 0x200) and function
start 0x200, `search_line("a.cpp", 16)` returns None — line 15 is the only
function-start line and does not fall within the range [16, 16] — not
0x200 as the claim states. -/
theorem search_line_claim_example_fails :
    ¬(exLinesC8.search_line ["a.cpp"] 16 none = some 0x200) := by
  decide

/-- C8 amended: on the example LinesDb, `search_line("a.cpp", 15)` (the
function-start line itself) returns 0x200 and `search_line("a.cpp", 10)`
returns None because 0x100 is not a registered function start; in general
`search_line` defaults `line_end` to `line_start`. -/
theorem search_line_amended :
    exLinesC8.search_line ["a.cpp"] 15 none = some 0x200 ∧
      exLinesC8.search_line ["a.cpp"] 10 none = none ∧
      ∀ (db : LinesDb) (p : PPath) (ls : Int),
        db.search_line p ls none = db.search_line p ls (some ls) :=
  ⟨by decide, by decide, fun _ _ _ => rfl⟩

/-- C7 counterexample: the store holds a single non-LINE entity at orig
address 0x10 (its type attribute is simply unset), yet
`get_next_orig_addr 5` returns None rather than 0x10: the SQL predicate
`json_extract(kvstore,'$.type') != LINE` is NULL for an entity without a
type, so untyped entities are skipped too, contradicting the claim that
only LINE-type entities are skipped. -/
theorem get_next_orig_addr_skips_untyped :
    get_next_orig_addr exStoreC7 5 = none ∧
      (∃ e ∈ exStoreC7.entities, e.orig_addr = some 0x10 ∧
        jext e.kvstore "type" = none ∧ (5 : Int) < 0x10) := by
  decide

/-- C3 counterexample: recomp 2 is already committed as matched to orig 1;
a later batch stages `match(3, 2)` and commits.  The claim says the old
link is broken (entity 1 becomes unmatched) and the new link (3, 2) is
written.  In fact `bulk_match` only updates rows with
`recomp_addr = ? AND orig_addr is null`, so the store is left completely
unchanged: the old link survives and the new pairing is silently
dropped. -/
theorem match_keeps_committed_link :
    ((EntityBatch.empty.stage_match 3 2).commit exStoreC3).1 = exStoreC3 ∧
      (get_by_recomp exStoreC3 2).map (·.orig_addr) = some (some 1) ∧
      (get_by_orig exStoreC3 3).map (·.recomp_addr) = some none := by
  decide

/-- C3 amended: `match` stages a bidirectional link, and last-writer-wins
applies only to links staged within the same batch: a staged pair for the
same recomp address replaces the earlier staged pair, whose orig address
loses its staged link.  A link already committed by an earlier batch is
not broken: at commit, a staged pair whose recomp address belongs to an
already-matched entity leaves the entities table unchanged (the new
pairing is silently dropped and the old link kept). -/
theorem match_last_writer_wins_amended :
    (∀ (b : EntityBatch) (o r : Int),
        assocGet (b.stage_match o r).recomp_to_orig r = some o ∧
          assocGet (b.stage_match o r).orig_to_recomp o = some r ∧
          ∀ o2, assocGet b.recomp_to_orig r = some o2 → ¬(o2 = o) →
            assocGet (b.stage_match o r).orig_to_recomp o2 = none) ∧
      ∀ (es : List Entity) (o r : Int),
        (∀ e ∈ es, e.recomp_addr = some r → e.orig_addr ≠ none) →
        bulk_match es [(o, r)] = es := by
  constructor
  · intro b o r
    unfold EntityBatch.stage_match
    cases hused : assocGet b.recomp_to_orig r with
    | none =>
      refine ⟨?_, ?_, ?_⟩
      · exact assocGet_assocSet_self _ _ _
      · exact assocGet_assocSet_self _ _ _
      · intro o2 h2
        exact absurd h2 (by simp)
    | some used =>
      refine ⟨?_, ?_, ?_⟩
      · exact assocGet_assocSet_self _ _ _
      · exact assocGet_assocSet_self _ _ _
      · intro o2 h2 hne
        cases h2
        dsimp only
        rw [assocGet_assocSet_ne _ _ _ _ hne]
        exact assocGet_assocErase_self _ _
  · intro es o r h
    have h1 : matchKvCopy es o r = es := by
      unfold matchKvCopy
      cases hf : es.find?
          (fun e => e.orig_addr == some o && e.recomp_addr == none) with
      | none => rfl
      | some src =>
        have hid : ∀ e ∈ es,
            (if e.recomp_addr == some r && e.orig_addr == none then
              { e with kvstore :=
                jsonPatch src.kvstore (jsonPatch [] e.kvstore) }
            else e) = e := by
          intro e he
          have hcond : ¬(e.recomp_addr == some r && e.orig_addr == none)
              = true := by
            intro hc
            rw [Bool.and_eq_true, beq_iff_eq, beq_iff_eq] at hc
            exact h e he hc.1 (by simp [hc.2])
          rw [if_neg hcond]
        exact (List.map_congr_left hid).trans (List.map_id es)
    have h2 : matchSetOrig es o r = es := by
      unfold matchSetOrig
      have hg : ¬(es.any
          (fun e => e.recomp_addr == some r && e.orig_addr == none)) = true := by
        intro hc
        rcases List.any_eq_true.mp hc with ⟨e, he, hcond⟩
        rw [Bool.and_eq_true, beq_iff_eq, beq_iff_eq] at hcond
        exact h e he hcond.1 (by simp [hcond.2])
      rw [if_neg hg]
    show matchSetOrig (matchKvCopy es o r) o r = es
    rw [h1, h2]

/-- Witness: the amended C3 theorem applied to the concrete store of the
counterexample. -/
theorem match_last_writer_wins_amended_witness :
    bulk_match exStoreC3.entities [(3, 2)] = exStoreC3.entities :=
  match_last_writer_wins_amended.2 exStoreC3.entities 3 2 (by decide)

theorem stageTypeAndLabel_types_of_false (b : EntityBatch) (img addr : Int)
    (kw : KV) (h : truthy (kvGet kw "type") = false) :
    (stageTypeAndLabel b img addr kw).types = b.types := by
  unfold stageTypeAndLabel
  rw [h]
  simp only [Bool.false_eq_true, if_false]
  split
  · split
    · rfl
    · rfl
  · rfl

theorem applyCall_types_of_no_type (b : EntityBatch) (c : BatchCall)
    (h : callHasType c = false) : (applyCall b c).types = b.types := by
  cases c with
  | ins_orig a kw =>
    exact stageTypeAndLabel_types_of_false _ 0 a kw h
  | ins_recomp a kw =>
    exact stageTypeAndLabel_types_of_false _ 1 a kw h
  | s_orig a kw =>
    exact stageTypeAndLabel_types_of_false _ 0 a kw h
  | s_recomp a kw =>
    exact stageTypeAndLabel_types_of_false _ 1 a kw h
  | pair o r =>
    show (b.stage_match o r).types = b.types
    unfold EntityBatch.stage_match
    cases assocGet b.recomp_to_orig r <;> rfl
  | raddr o r => rfl

theorem buildBatch_types_of_no_type (cs : List BatchCall)
    (h : ∀ c ∈ cs, callHasType c = false) : (buildBatch cs).types = [] := by
  suffices haux : ∀ (cs : List BatchCall) (b : EntityBatch),
      (∀ c ∈ cs, callHasType c = false) → b.types = [] →
      (cs.foldl applyCall b).types = [] by
    exact haux cs EntityBatch.empty h rfl
  intro cs
  induction cs with
  | nil => intro b _ hb; exact hb
  | cons c rest ih =>
    intro b hcs hb
    exact ih (applyCall b c)
      (fun d hd => hcs d (List.mem_cons_of_mem _ hd))
      ((applyCall_types_of_no_type b c (hcs c (List.mem_cons_self _ _))).trans hb)

theorem commit_labels_of_types_nil (b : EntityBatch) (s : DbState)
    (h : b.types = []) : (b.commit s).1.labels = s.labels := by
  unfold EntityBatch.commit
  rw [h]
  dsimp only
  repeat' split
  all_goals first
  | rfl
  | (exfalso; simp_all)

/-- C10: `commit()` guards the labels insert with `if self._types:`, not
`if self._labels:`.  A batch built from staging calls none of which
supplies a (truthy) type stages no types, and its commit leaves the labels
table unchanged even when names were staged — those names never enter the
label index used by the positional matching pass. -/
theorem staged_labels_dropped_without_types :
    ∀ (cs : List BatchCall) (s : DbState),
      (∀ c ∈ cs, callHasType c = false) →
      (buildBatch cs).types = [] ∧
        ((buildBatch cs).commit s).1.labels = s.labels := by
  intro cs s h
  have ht := buildBatch_types_of_no_type cs h
  exact ⟨ht, commit_labels_of_types_nil _ s ht⟩

/-- Witness: a batch staging one name and no type; its staged labels are
nonempty, yet commit leaves the (empty) labels table empty. -/
theorem staged_labels_dropped_without_types_witness :
    (buildBatch exCallsC10).labels = [((0, 5), "X")] ∧
      ((buildBatch exCallsC10).commit DbState.empty).1.labels = [] :=
  ⟨by decide,
    (staged_labels_dropped_without_types exCallsC10 DbState.empty
      (by decide)).2⟩

theorem jext_shape (kv : KV) (k : String) :
    jext kv k = none ∨ (∃ n, jext kv k = some (JVal.jint n)) ∨
      ∃ str, jext kv k = some (JVal.jstr str) := by
  unfold jext
  cases kvGet kv k with
  | none => exact Or.inl rfl
  | some v =>
    cases v with
    | jnull => exact Or.inl rfl
    | jint n => exact Or.inr (Or.inl ⟨n, rfl⟩)
    | jstr str => exact Or.inr (Or.inr ⟨str, rfl⟩)
    | jbool b => exact Or.inr (Or.inl ⟨if b then 1 else 0, rfl⟩)

theorem sqlTypeNe_line_iff (kv : KV) :
    sqlTypeNe (jext kv "type") EntityType.LINE = true ↔
      jext kv "type" ≠ none ∧
        jext kv "type" ≠ some (JVal.jint EntityType.LINE) := by
  rcases jext_shape kv "type" with h | ⟨n, h⟩ | ⟨str, h⟩ <;> rw [h]
  · simp [sqlTypeNe]
  · simp only [sqlTypeNe, bne_iff_ne, ne_eq]
    constructor
    · intro hne
      exact ⟨by simp, by simp [hne]⟩
    · intro ⟨_, h2⟩ hc
      exact h2 (by rw [hc])
  · simp [sqlTypeNe]

/-- C7 amended: `get_next_orig_addr(addr)` returns the smallest used
original address strictly greater than `addr` among entities whose type
attribute is set and is not LINE (matched or not); entities with an unset
type attribute are skipped as well (the SQL predicate
`json_extract(kvstore,'$.type') != LINE` is NULL for them), and None is
returned exactly when no such address exists. -/
theorem get_next_orig_addr_amended :
    ∀ (s : DbState) (addr : Int),
      (∀ a : Int, get_next_orig_addr s addr = some a ↔
        a ∈ nextOrigCandidates s addr ∧
          ∀ b ∈ nextOrigCandidates s addr, a ≤ b) ∧
        (get_next_orig_addr s addr = none ↔
          nextOrigCandidates s addr = []) ∧
        ∀ a : Int, a ∈ nextOrigCandidates s addr ↔
          ∃ e ∈ s.entities, e.orig_addr = some a ∧ addr < a ∧
            jext e.kvstore "type" ≠ none ∧
            jext e.kvstore "type" ≠ some (JVal.jint EntityType.LINE) := by
  intro s addr
  refine ⟨?_, ?_, ?_⟩
  · intro a
    exact List.min?_eq_some_iff (fun x => le_refl x) (fun x y => min_choice x y)
      (fun _ _ _ => le_min_iff)
  · exact List.min?_eq_none_iff
  · intro a
    unfold nextOrigCandidates
    rw [List.mem_filterMap]
    constructor
    · rintro ⟨e, he, hfe⟩
      cases horig : e.orig_addr with
      | none => rw [horig] at hfe; exact absurd hfe (by simp)
      | some a2 =>
        rw [horig] at hfe
        dsimp only at hfe
        by_cases hcond : (addr < a2 &&
            sqlTypeNe (jext e.kvstore "type") EntityType.LINE) = true
        · rw [if_pos hcond] at hfe
          cases hfe
          rw [Bool.and_eq_true, decide_eq_true_eq] at hcond
          have := (sqlTypeNe_line_iff e.kvstore).mp hcond.2
          exact ⟨e, he, horig, hcond.1, this.1, this.2⟩
        · rw [if_neg hcond] at hfe
          exact absurd hfe (by simp)
    · rintro ⟨e, he, horig, hlt, ht1, ht2⟩
      refine ⟨e, he, ?_⟩
      rw [horig]
      dsimp only
      rw [if_pos]
      rw [Bool.and_eq_true, decide_eq_true_eq]
      exact ⟨hlt, (sqlTypeNe_line_iff e.kvstore).mpr ⟨ht1, ht2⟩⟩

theorem uniq_iff_pairwise (es : List Entity) :
    Uniq es ↔ es.Pairwise ONe ∧ es.Pairwise RNe := by
  unfold Uniq origsOf recompsOf List.Nodup
  rw [List.pairwise_filterMap, List.pairwise_filterMap]
  exact Iff.rfl

theorem origUsed_iff (es : List Entity) (a : Int) :
    origUsed es a = true ↔ a ∈ origsOf es := by
  unfold origUsed origsOf
  rw [List.any_eq_true, List.mem_filterMap]
  constructor
  · rintro ⟨e, he, hb⟩
    exact ⟨e, he, by simpa using hb⟩
  · rintro ⟨e, he, hb⟩
    exact ⟨e, he, by simpa using hb⟩

theorem recompUsed_iff (es : List Entity) (a : Int) :
    recompUsed es a = true ↔ a ∈ recompsOf es := by
  unfold recompUsed recompsOf
  rw [List.any_eq_true, List.mem_filterMap]
  constructor
  · rintro ⟨e, he, hb⟩
    exact ⟨e, he, by simpa using hb⟩
  · rintro ⟨e, he, hb⟩
    exact ⟨e, he, by simpa using hb⟩

theorem uniq_map_pres (es : List Entity) (f : Entity → Entity)
    (hfo : ∀ e, (f e).orig_addr = e.orig_addr)
    (hfr : ∀ e, (f e).recomp_addr = e.recomp_addr)
    (h : Uniq es) : Uniq (es.map f) := by
  unfold Uniq origsOf recompsOf at h ⊢
  rw [List.filterMap_map,
    show ((fun e : Entity => e.orig_addr) ∘ f) =
      (fun e : Entity => e.orig_addr) from funext fun e => hfo e,
    List.filterMap_map,
    show ((fun e : Entity => e.recomp_addr) ∘ f) =
      (fun e : Entity => e.recomp_addr) from funext fun e => hfr e]
  exact h

theorem uniq_origInsertRow (u : Bool) (es : List Entity) (a : Int) (kv : KV)
    (h : Uniq es) : Uniq (origInsertRow u es a kv) := by
  unfold origInsertRow
  by_cases hused : origUsed es a
  · rw [if_pos hused]
    cases u with
    | false => exact h
    | true =>
      apply uniq_map_pres es _ _ _ h
      · intro e
        by_cases hc : (e.orig_addr == some a) = true <;> simp [hc]
      · intro e
        by_cases hc : (e.orig_addr == some a) = true <;> simp [hc]
  · rw [if_neg hused]
    unfold Uniq origsOf recompsOf at h ⊢
    rw [List.filterMap_append, List.filterMap_append]
    constructor
    · have hmem : a ∉ es.filterMap (fun e : Entity => e.orig_addr) := by
        intro hc
        exact hused ((origUsed_iff es a).mpr hc)
      rw [show List.filterMap (fun e : Entity => e.orig_addr)
          [⟨some a, none, kv⟩] = [a] from rfl]
      rw [List.nodup_append]
      exact ⟨h.1, List.nodup_singleton a,
        by simpa [List.disjoint_singleton] using hmem⟩
    · rw [show List.filterMap (fun e : Entity => e.recomp_addr)
          [⟨some a, none, kv⟩] = [] from rfl, List.append_nil]
      exact h.2

theorem uniq_recompInsertRow (u : Bool) (es : List Entity) (a : Int) (kv : KV)
    (h : Uniq es) : Uniq (recompInsertRow u es a kv) := by
  unfold recompInsertRow
  by_cases hused : recompUsed es a
  · rw [if_pos hused]
    cases u with
    | false => exact h
    | true =>
      apply uniq_map_pres es _ _ _ h
      · intro e
        by_cases hc : (e.recomp_addr == some a) = true <;> simp [hc]
      · intro e
        by_cases hc : (e.recomp_addr == some a) = true <;> simp [hc]
  · rw [if_neg hused]
    unfold Uniq origsOf recompsOf at h ⊢
    rw [List.filterMap_append, List.filterMap_append]
    constructor
    · rw [show List.filterMap (fun e : Entity => e.orig_addr)
          [⟨none, some a, kv⟩] = [] from rfl, List.append_nil]
      exact h.1
    · have hmem : a ∉ es.filterMap (fun e : Entity => e.recomp_addr) := by
        intro hc
        exact hused ((recompUsed_iff es a).mpr hc)
      rw [show List.filterMap (fun e : Entity => e.recomp_addr)
          [⟨none, some a, kv⟩] = [a] from rfl]
      rw [List.nodup_append]
      exact ⟨h.2, List.nodup_singleton a,
        by simpa [List.disjoint_singleton] using hmem⟩

theorem uniq_matchKvCopy (es : List Entity) (o r : Int) (h : Uniq es) :
    Uniq (matchKvCopy es o r) := by
  unfold matchKvCopy
  cases es.find? (fun e => e.orig_addr == some o && e.recomp_addr == none) with
  | none => exact h
  | some src =>
    apply uniq_map_pres es _ _ _ h
    · intro e
      by_cases hc : (e.recomp_addr == some r && e.orig_addr == none) = true <;>
        simp [hc]
    · intro e
      by_cases hc : (e.recomp_addr == some r && e.orig_addr == none) = true <;>
        simp [hc]

theorem uniq_matchSetOrig (es : List Entity) (o r : Int) (h : Uniq es) :
    Uniq (matchSetOrig es o r) := by
  unfold matchSetOrig
  by_cases hg :
      (es.any (fun e => e.recomp_addr == some r && e.orig_addr == none)) = true
  case neg => rw [if_neg hg]; exact h
  case pos =>
    rw [if_pos hg]
    rcases (uniq_iff_pairwise es).mp h with ⟨ho, hr⟩
    apply (uniq_iff_pairwise _).mpr
    have hfilter :=
      (ho.and hr).filter (fun e => !(e.orig_addr == some o))
    constructor
    · rw [List.pairwise_map]
      apply hfilter.imp_of_mem
      intro a b ha hb hab
      have hpa : ¬(a.orig_addr = some o) := by
        have := (List.mem_filter.mp ha).2
        simpa using this
      have hpb : ¬(b.orig_addr = some o) := by
        have := (List.mem_filter.mp hb).2
        simpa using this
      by_cases hca : (a.recomp_addr == some r && a.orig_addr == none) = true
      · by_cases hcb : (b.recomp_addr == some r && b.orig_addr == none) = true
        · exfalso
          rw [Bool.and_eq_true, beq_iff_eq, beq_iff_eq] at hca hcb
          exact hab.2 r (by simp [hca.1]) r (by simp [hcb.1]) rfl
        · intro x hx y hy
          rw [if_pos hca] at hx
          rw [if_neg hcb] at hy
          simp only [Option.mem_def, Option.some.injEq] at hx
          intro hxy
          exact hpb (by rw [show o = y from hx.trans hxy]; exact hy)
      · by_cases hcb : (b.recomp_addr == some r && b.orig_addr == none) = true
        · intro x hx y hy
          rw [if_neg hca] at hx
          rw [if_pos hcb] at hy
          simp only [Option.mem_def, Option.some.injEq] at hy
          intro hxy
          exact hpa (by rw [show o = x from hy.trans hxy.symm]; exact hx)
        · intro x hx y hy
          rw [if_neg hca] at hx
          rw [if_neg hcb] at hy
          exact hab.1 x hx y hy
    · rw [List.pairwise_map]
      apply hfilter.imp_of_mem
      intro a b _ _ hab
      intro x hx y hy
      have hxa : x ∈ a.recomp_addr := by
        by_cases hca : (a.recomp_addr == some r && a.orig_addr == none) = true
        · rw [if_pos hca] at hx; exact hx
        · rw [if_neg hca] at hx; exact hx
      have hyb : y ∈ b.recomp_addr := by
        by_cases hcb : (b.recomp_addr == some r && b.orig_addr == none) = true
        · rw [if_pos hcb] at hy; exact hy
        · rw [if_neg hcb] at hy; exact hy
      exact hab.2 x hxa y hyb

theorem uniq_setRecompAddrRow (es : List Entity) (o r : Int)
    (es2 : List Entity) (h : Uniq es)
    (hok : setRecompAddrRow es o r = Except.ok es2) : Uniq es2 := by
  unfold setRecompAddrRow at hok
  by_cases hm :
      (es.any (fun e => e.orig_addr == some o && e.recomp_addr == none)) = true
  · rw [if_pos hm] at hok
    by_cases hu : recompUsed es r
    · rw [if_pos hu] at hok
      cases hok
    · rw [if_neg hu] at hok
      have hes2 : es2 = es.map (fun e =>
          if e.orig_addr == some o && e.recomp_addr == none then
            { e with recomp_addr := some r }
          else e) := by
        cases hok
        rfl
      subst hes2
      rcases (uniq_iff_pairwise es).mp h with ⟨ho, hr⟩
      apply (uniq_iff_pairwise _).mpr
      constructor
      · rw [List.pairwise_map]
        apply ho.imp_of_mem
        intro a b _ _ hab
        intro x hx y hy
        have hxa : x ∈ a.orig_addr := by
          by_cases hca : (a.orig_addr == some o && a.recomp_addr == none) = true
          · rw [if_pos hca] at hx; exact hx
          · rw [if_neg hca] at hx; exact hx
        have hyb : y ∈ b.orig_addr := by
          by_cases hcb : (b.orig_addr == some o && b.recomp_addr == none) = true
          · rw [if_pos hcb] at hy; exact hy
          · rw [if_neg hcb] at hy; exact hy
        exact hab x hxa y hyb
      · rw [List.pairwise_map]
        apply ((ho.and hr).imp_of_mem)
        intro a b ha hb hab
        intro x hx y hy
        by_cases hca : (a.orig_addr == some o && a.recomp_addr == none) = true
        · by_cases hcb : (b.orig_addr == some o && b.recomp_addr == none) = true
          · exfalso
            rw [Bool.and_eq_true, beq_iff_eq, beq_iff_eq] at hca hcb
            exact hab.1 o (by simp [hca.1]) o (by simp [hcb.1]) rfl
          · rw [if_pos hca] at hx
            rw [if_neg hcb] at hy
            simp only [Option.mem_def, Option.some.injEq] at hx
            intro hxy
            apply hu
            apply (recompUsed_iff es r).mpr
            unfold recompsOf
            rw [List.mem_filterMap]
            exact ⟨b, hb, by rw [show r = y from hx.trans hxy]; exact hy⟩
        · by_cases hcb : (b.orig_addr == some o && b.recomp_addr == none) = true
          · rw [if_neg hca] at hx
            rw [if_pos hcb] at hy
            simp only [Option.mem_def, Option.some.injEq] at hy
            intro hxy
            apply hu
            apply (recompUsed_iff es r).mpr
            unfold recompsOf
            rw [List.mem_filterMap]
            exact ⟨a, ha, by rw [show r = x from hy.trans hxy.symm]; exact hx⟩
          · rw [if_neg hca] at hx
            rw [if_neg hcb] at hy
            exact hab.2 x hx y hy
  · rw [if_neg hm] at hok
    cases hok
    exact h

theorem uniq_set_pair (s : DbState) (o r : Int) (t : Option Int)
    (h : Uniq s.entities) : Uniq (set_pair s o r t).1.entities := by
  unfold set_pair
  by_cases hused : origUsed s.entities o
  · rw [if_pos hused]
    exact h
  · rw [if_neg hused]
    dsimp only
    rcases (uniq_iff_pairwise s.entities).mp h with ⟨ho, hr⟩
    apply (uniq_iff_pairwise _).mpr
    constructor
    · rw [List.pairwise_map]
      apply ((ho.and hr).imp_of_mem)
      intro a b ha hb hab
      intro x hx y hy
      by_cases hca : (a.recomp_addr == some r) = true
      · by_cases hcb : (b.recomp_addr == some r) = true
        · exfalso
          rw [beq_iff_eq] at hca hcb
          exact hab.2 r (by simp [hca]) r (by simp [hcb]) rfl
        · rw [if_pos hca] at hx
          rw [if_neg hcb] at hy
          simp only [Option.mem_def, Option.some.injEq] at hx
          intro hxy
          apply hused
          apply (origUsed_iff s.entities o).mpr
          unfold origsOf
          rw [List.mem_filterMap]
          exact ⟨b, hb, by rw [show o = y from hx.trans hxy]; exact hy⟩
      · by_cases hcb : (b.recomp_addr == some r) = true
        · rw [if_neg hca] at hx
          rw [if_pos hcb] at hy
          simp only [Option.mem_def, Option.some.injEq] at hy
          intro hxy
          apply hused
          apply (origUsed_iff s.entities o).mpr
          unfold origsOf
          rw [List.mem_filterMap]
          exact ⟨a, ha, by rw [show o = x from hy.trans hxy.symm]; exact hx⟩
        · rw [if_neg hca] at hx
          rw [if_neg hcb] at hy
          exact hab.1 x hx y hy
    · rw [List.pairwise_map]
      apply hr.imp_of_mem
      intro a b _ _ hab
      intro x hx y hy
      have hxa : x ∈ a.recomp_addr := by
        by_cases hca : (a.recomp_addr == some r) = true
        · rw [if_pos hca] at hx; exact hx
        · rw [if_neg hca] at hx; exact hx
      have hyb : y ∈ b.recomp_addr := by
        by_cases hcb : (b.recomp_addr == some r) = true
        · rw [if_pos hcb] at hy; exact hy
        · rw [if_neg hcb] at hy; exact hy
      exact hab x hxa y hyb

theorem uniq_bulk_orig_insert (u : Bool) (rows : List (Int × KV)) :
    ∀ es : List Entity, Uniq es → Uniq (bulk_orig_insert u es rows) := by
  induction rows with
  | nil => intro es h; exact h
  | cons p rest ih =>
    intro es h
    exact ih (origInsertRow u es p.1 p.2) (uniq_origInsertRow u es p.1 p.2 h)

theorem uniq_bulk_recomp_insert (u : Bool) (rows : List (Int × KV)) :
    ∀ es : List Entity, Uniq es → Uniq (bulk_recomp_insert u es rows) := by
  induction rows with
  | nil => intro es h; exact h
  | cons p rest ih =>
    intro es h
    exact ih (recompInsertRow u es p.1 p.2)
      (uniq_recompInsertRow u es p.1 p.2 h)

theorem uniq_bulk_match (pairs : List (Int × Int)) (es : List Entity)
    (h : Uniq es) : Uniq (bulk_match es pairs) := by
  unfold bulk_match
  have h1 : ∀ (ps : List (Int × Int)) (es1 : List Entity), Uniq es1 →
      Uniq (ps.foldl (fun acc p => matchKvCopy acc p.1 p.2) es1) := by
    intro ps
    induction ps with
    | nil => intro es1 h1; exact h1
    | cons p rest ih =>
      intro es1 h1
      exact ih _ (uniq_matchKvCopy es1 p.1 p.2 h1)
  have h2 : ∀ (ps : List (Int × Int)) (es1 : List Entity), Uniq es1 →
      Uniq (ps.foldl (fun acc p => matchSetOrig acc p.1 p.2) es1) := by
    intro ps
    induction ps with
    | nil => intro es1 h1; exact h1
    | cons p rest ih =>
      intro es1 h1
      exact ih _ (uniq_matchSetOrig es1 p.1 p.2 h1)
  exact h2 pairs _ (h1 pairs es h)

theorem uniq_bulk_set_recomp_addr (pairs : List (Int × Int)) :
    ∀ (es es2 : List Entity), Uniq es →
      bulk_set_recomp_addr es pairs = Except.ok es2 → Uniq es2 := by
  unfold bulk_set_recomp_addr
  induction pairs with
  | nil =>
    intro es es2 h hok
    cases hok
    exact h
  | cons p rest ih =>
    intro es es2 h hok
    rw [List.foldlM_cons] at hok
    cases hrow : setRecompAddrRow es p.1 p.2 with
    | error e =>
      rw [hrow] at hok
      cases hok
    | ok es1 =>
      rw [hrow] at hok
      exact ih es1 es2 (uniq_setRecompAddrRow es p.1 p.2 es1 h hrow) hok

theorem uniq_guarded (c : Bool) (f : List Entity → List Entity)
    (es1 : List Entity) (hf : ∀ es2, Uniq es2 → Uniq (f es2))
    (h1 : Uniq es1) : Uniq (if c then f es1 else es1) := by
  cases c
  · simpa using h1
  · simpa using hf es1 h1

theorem uniq_commitStage1 (b : EntityBatch) (es : List Entity)
    (h : Uniq es) : Uniq (commitStage1 b es) := by
  unfold commitStage1
  exact uniq_guarded (b.orig_to_recomp != [])
    (fun es2 => bulk_match es2 b.orig_to_recomp) _
    (fun es2 h2 => uniq_bulk_match _ _ h2)
    (uniq_guarded (b.recomp_set != [])
      (fun es2 => bulk_recomp_insert true es2 b.recomp_set) _
      (fun es2 h2 => uniq_bulk_recomp_insert _ _ _ h2)
      (uniq_guarded (b.orig_set != [])
        (fun es2 => bulk_orig_insert true es2 b.orig_set) _
        (fun es2 h2 => uniq_bulk_orig_insert _ _ _ h2)
        (uniq_guarded (b.recomp_insert != [])
          (fun es2 => bulk_recomp_insert false es2 b.recomp_insert) _
          (fun es2 h2 => uniq_bulk_recomp_insert _ _ _ h2)
          (uniq_guarded (b.orig_insert != [])
            (fun es2 => bulk_orig_insert false es2 b.orig_insert) _
            (fun es2 h2 => uniq_bulk_orig_insert _ _ _ h2) h))))

theorem uniq_commit (b : EntityBatch) (s : DbState) (h : Uniq s.entities) :
    Uniq ((b.commit s).1.entities) := by
  unfold EntityBatch.commit
  dsimp only
  have h5 : Uniq (commitStage1 b s.entities) := uniq_commitStage1 b s.entities h
  cases hres : (if (b.recomp_addr != []) = true
      then bulk_set_recomp_addr (commitStage1 b s.entities) b.recomp_addr
      else Except.ok (commitStage1 b s.entities)) with
  | error e =>
    dsimp only
    split
    · exact h5
    · exact h
  | ok es6 =>
    dsimp only
    by_cases hrc : (b.recomp_addr != []) = true
    · rw [if_pos hrc] at hres
      exact uniq_bulk_set_recomp_addr b.recomp_addr _ es6 h5 hres
    · rw [if_neg hrc] at hres
      cases hres
      exact h5

theorem uniq_applyOp (s : DbState) (op : DbOp) (h : Uniq s.entities) :
    Uniq (applyOp s op).entities := by
  cases op with
  | insert_orig a kv => exact uniq_bulk_orig_insert false _ s.entities h
  | insert_recomp a kv => exact uniq_bulk_recomp_insert false _ s.entities h
  | batch_commit b => exact uniq_commit b s h
  | do_set_pair o r t => exact uniq_set_pair s o r t h
  | run_match_symbols t =>
    show Uniq ((match_symbols s t).1.entities)
    unfold match_symbols
    exact uniq_commit _ s h
  | run_match_functions t =>
    show Uniq ((match_functions s t).1.entities)
    unfold match_functions
    exact uniq_commit _ s h
  | run_match_static_variables =>
    show Uniq ((match_static_variables s).1.entities)
    unfold match_static_variables
    exact uniq_commit _ s h
  | run_match_lines ldb =>
    dsimp only [applyOp]
    unfold match_lines
    cases ((orig_unmatched s).filterMap (fun p =>
        if jext p.2 "type" == some (JVal.jint EntityType.LINE) then
          some (p.1, jext p.2 "filename", jext p.2 "line")
        else none) : List (Int × Option JVal × Option JVal)) with
    | nil => exact uniq_commit _ s h
    | cons hd tl => exact h

theorem uniq_runOps_aux (ops : List DbOp) :
    ∀ s : DbState, Uniq s.entities → Uniq ((ops.foldl applyOp s).entities) := by
  induction ops with
  | nil => intro s h; exact h
  | cons op rest ih =>
    intro s h
    exact ih _ (uniq_applyOp s op h)

/-- C2: in every store state reachable from the empty store through any
sequence of ingestion inserts, batch commits (all matching passes mutate
only through one; the passes themselves are also included as operations),
and `set_pair` calls, no two entities carry the same set orig address and
no two carry the same set recomp address — including the states left
behind by a failed commit. -/
theorem address_uniqueness_invariant (ops : List DbOp) :
    (runOps ops).entities.Pairwise
        (fun e1 e2 =>
          (∀ x : Int, e1.orig_addr = some x → ¬(e2.orig_addr = some x)) ∧
            ∀ x : Int, e1.recomp_addr = some x → ¬(e2.recomp_addr = some x)) ∧
      Uniq (runOps ops).entities := by
  have h : Uniq (runOps ops).entities :=
    uniq_runOps_aux ops DbState.empty ⟨List.nodup_nil, List.nodup_nil⟩
  refine ⟨?_, h⟩
  rcases (uniq_iff_pairwise _).mp h with ⟨ho, hr⟩
  exact (ho.and hr).imp (fun hab =>
    ⟨fun x hx hy => hab.1 x hx x hy rfl,
      fun x hx hy => hab.2 x hx x hy rfl⟩)

theorem insertSorted_perm {α : Type} (le : α → α → Bool) (a : α)
    (l : List α) : (insertSorted le a l).Perm (a :: l) := by
  induction l with
  | nil => exact List.Perm.refl _
  | cons b bs ih =>
    unfold insertSorted
    by_cases hc : le a b = true
    · rw [if_pos hc]
    · rw [if_neg hc]
      exact (ih.cons b).trans (List.Perm.swap a b bs)

theorem stableSort_perm {α : Type} (le : α → α → Bool) (l : List α) :
    (stableSort le l).Perm l := by
  induction l with
  | nil => exact List.Perm.refl _
  | cons a as ih =>
    exact (insertSorted_perm le a (stableSort le as)).trans (ih.cons a)

theorem mem_insertSorted {α : Type} (le : α → α → Bool) (a x : α)
    (l : List α) : x ∈ insertSorted le a l ↔ x = a ∨ x ∈ l := by
  rw [(insertSorted_perm le a l).mem_iff]
  simp

theorem insertSorted_pairwise {α : Type} (le : α → α → Bool)
    (htrans : ∀ x y z, le x y = true → le y z = true → le x z = true)
    (htot : ∀ x y, le x y = true ∨ le y x = true) (a : α) (l : List α)
    (h : l.Pairwise (fun x y => le x y = true)) :
    (insertSorted le a l).Pairwise (fun x y => le x y = true) := by
  induction l with
  | nil => exact List.pairwise_singleton _ a
  | cons b bs ih =>
    unfold insertSorted
    rcases List.pairwise_cons.mp h with ⟨hb, hbs⟩
    by_cases hc : le a b = true
    · rw [if_pos hc]
      apply List.pairwise_cons.mpr
      refine ⟨?_, h⟩
      intro y hy
      rcases List.mem_cons.mp hy with hy | hy
      · cases hy
        exact hc
      · exact htrans a b y hc (hb y hy)
    · rw [if_neg hc]
      apply List.pairwise_cons.mpr
      constructor
      · intro y hy
        rcases (mem_insertSorted le a y bs).mp hy with hy | hy
        · cases hy
          rcases htot a b with hab | hba
          · exact absurd hab hc
          · exact hba
        · exact hb y hy
      · exact ih hbs

theorem stableSort_pairwise {α : Type} (le : α → α → Bool)
    (htrans : ∀ x y z, le x y = true → le y z = true → le x z = true)
    (htot : ∀ x y, le x y = true ∨ le y x = true) (l : List α) :
    (stableSort le l).Pairwise (fun x y => le x y = true) := by
  induction l with
  | nil => exact List.Pairwise.nil
  | cons a as ih => exact insertSorted_pairwise le htrans htot a _ ih

theorem assocGet_append {α β : Type} [BEq α] (l1 l2 : List (α × β)) (k : α) :
    assocGet (l1 ++ l2) k =
      match assocGet l1 k with
      | some v => some v
      | none => assocGet l2 k := by
  induction l1 with
  | nil => rfl
  | cons p rest ih =>
    by_cases hp : (p.1 == k) = true
    · simp only [List.cons_append, assocGet, hp, if_true]
    · simp only [List.cons_append, assocGet, hp, if_false]
      exact ih

theorem assocGet_ixAdd_self (ix : EntityIndex) (k : String) (v : Int) :
    assocGet (ixAdd ix k v) k = some ((assocGet ix k).getD [] ++ [v]) := by
  unfold ixAdd
  cases h : assocGet ix k with
  | some l =>
    rw [assocGet_assocSet_self]
    rfl
  | none =>
    rw [assocGet_append, h]
    simp [assocGet]

theorem assocGet_ixAdd_ne (ix : EntityIndex) (k k2 : String) (v : Int)
    (h : ¬(k2 = k)) : assocGet (ixAdd ix k v) k2 = assocGet ix k2 := by
  unfold ixAdd
  cases hk : assocGet ix k with
  | some l => exact assocGet_assocSet_ne ix k k2 (l ++ [v]) h
  | none =>
    rw [assocGet_append]
    cases h2 : assocGet ix k2 with
    | some w => rfl
    | none =>
      simp [assocGet, show ¬(k == k2) = true from
        by simpa using fun hc => h (eq_of_beq hc).symm]

theorem sorted_head_min (v : Int) (rest : List Int)
    (h : (v :: rest).Pairwise (fun x y : Int => x ≤ y)) :
    (v :: rest).min? = some v := by
  apply (List.min?_eq_some_iff (fun x => le_refl x) (fun x y => min_choice x y)
    (fun _ _ _ => le_min_iff)).mpr
  constructor
  · exact List.mem_cons_self v rest
  · intro b hb
    rcases List.mem_cons.mp hb with hb | hb
    · exact le_of_eq hb.symm
    · exact (List.pairwise_cons.mp h).1 b hb

theorem ixPop_eq_ixPopMin (ix : EntityIndex) (k : String)
    (hs : ∀ l, assocGet ix k = some l → l.Pairwise (fun x y : Int => x ≤ y)) :
    ixPop ix k = ixPopMin ix k := by
  unfold ixPop ixPopMin
  cases h : assocGet ix k with
  | none => rfl
  | some l =>
    cases l with
    | nil => rfl
    | cons v rest =>
      dsimp only
      rw [sorted_head_min v rest (hs _ h)]
      dsimp only
      rw [List.erase_cons_head]

theorem ixPopMin_sorted (ix : EntityIndex) (k : String) (hs : IxSorted ix) :
    ∀ p : Int × EntityIndex, ixPopMin ix k = some p → IxSorted p.2 := by
  intro p h
  unfold ixPopMin at h
  cases hget : assocGet ix k with
  | none =>
    rw [hget] at h
    exact Option.noConfusion h
  | some l =>
    rw [hget] at h
    dsimp only at h
    cases hmin : l.min? with
    | none =>
      rw [hmin] at h
      exact Option.noConfusion h
    | some m =>
      rw [hmin] at h
      dsimp only at h
      cases h
      intro k2 l2 hget2
      by_cases hk2 : k2 = k
      · subst hk2
        by_cases he : (l.erase m == []) = true
        · rw [if_pos he, assocGet_assocErase_self] at hget2
          exact Option.noConfusion hget2
        · rw [if_neg he, assocGet_assocSet_self] at hget2
          cases hget2
          exact (hs k2 l hget).sublist (l.erase_sublist m)
      · by_cases he : (l.erase m == []) = true
        · rw [if_pos he, assocGet_assocErase_ne _ _ _ hk2] at hget2
          exact hs k2 l2 hget2
        · rw [if_neg he, assocGet_assocSet_ne _ _ _ _ hk2] at hget2
          exact hs k2 l2 hget2

theorem symStep_eq_aux (rows : List (Int × String)) :
    ∀ acc : EntityIndex × EntityBatch × List Event, IxSorted acc.1 →
      rows.foldl symStepImpl acc = rows.foldl symStepSpec acc := by
  induction rows with
  | nil => intro acc _; rfl
  | cons row rest ih =>
    intro acc hs
    rw [List.foldl_cons, List.foldl_cons]
    have hstep : symStepImpl acc row = symStepSpec acc row := by
      unfold symStepImpl symStepSpec
      rw [ixPop_eq_ixPopMin acc.1 row.2 (fun l hl => hs row.2 l hl)]
    rw [hstep]
    apply ih
    unfold symStepSpec
    cases hp : ixPopMin acc.1 row.2 with
    | none => exact hs
    | some p =>
      cases p with
      | mk ra ix1 =>
        dsimp only
        exact ixPopMin_sorted acc.1 row.2 hs (ra, ix1) hp

theorem ixAdd_fold_sorted (rows : List (Int × String)) :
    ∀ ix : EntityIndex, IxSorted ix →
      (∀ k l x, assocGet ix k = some l → x ∈ l → ∀ row ∈ rows, x ≤ row.1) →
      rows.Pairwise (fun a b : Int × String => a.1 ≤ b.1) →
      IxSorted (rows.foldl (fun acc p => ixAdd acc p.2 p.1) ix) := by
  induction rows with
  | nil => intro ix hs _ _; exact hs
  | cons row rest ih =>
    intro ix hs hbound hpw
    rw [List.foldl_cons]
    rcases List.pairwise_cons.mp hpw with ⟨hhead, htail⟩
    apply ih
    · intro k2 l2 hget2
      by_cases hk2 : k2 = row.2
      · subst hk2
        rw [assocGet_ixAdd_self] at hget2
        cases hget2
        rw [List.pairwise_append]
        refine ⟨?_, List.pairwise_singleton _ _, ?_⟩
        · cases hold : assocGet ix row.2 with
          | none => exact List.Pairwise.nil
          | some l => exact hs row.2 l hold
        · intro x hx y hy
          cases List.mem_singleton.mp hy
          cases hold : assocGet ix row.2 with
          | none =>
            rw [hold] at hx
            simp at hx
          | some l =>
            rw [hold] at hx
            exact hbound row.2 l x hold hx row (List.mem_cons_self _ _)
      · rw [assocGet_ixAdd_ne _ _ _ _ hk2] at hget2
        exact hs k2 l2 hget2
    · intro k2 l2 x hget2 hx row2 hrow2
      by_cases hk2 : k2 = row.2
      · subst hk2
        rw [assocGet_ixAdd_self] at hget2
        cases hget2
        rcases List.mem_append.mp hx with hx | hx
        · cases hold : assocGet ix row.2 with
          | none =>
            rw [hold] at hx
            simp at hx
          | some l =>
            rw [hold] at hx
            exact hbound row.2 l x hold hx row2 (List.mem_cons_of_mem _ hrow2)
        · cases List.mem_singleton.mp hx
          exact hhead row2 hrow2
      · rw [assocGet_ixAdd_ne _ _ _ _ hk2] at hget2
        exact hbound k2 l2 x hget2 hx row2 (List.mem_cons_of_mem _ hrow2)
    · exact htail

theorem symRows_first (p : Int × KV) (t : Bool) (a : Int × String)
    (h : (match jext p.2 "symbol" with
          | some (JVal.jstr sym) => some (p.1, truncSym t sym)
          | _ => none) = some a) : a.1 = p.1 := by
  rcases jext_shape p.2 "symbol" with hj | ⟨n, hj⟩ | ⟨str, hj⟩ <;> rw [hj] at h
  · exact Option.noConfusion h
  · exact Option.noConfusion h
  · cases h
    rfl

theorem symRows_pairwise (s : DbState) (t : Bool) :
    (symRows (recomp_unmatched s) t).Pairwise
      (fun a b : Int × String => a.1 ≤ b.1) := by
  unfold symRows
  rw [List.pairwise_filterMap]
  unfold recomp_unmatched
  have hsorted := stableSort_pairwise
    (fun x y : Int × KV => decide (x.1 ≤ y.1))
    (fun x y z hxy hyz => by
      rw [decide_eq_true_eq] at hxy hyz ⊢
      exact le_trans hxy hyz)
    (fun x y => by
      rcases le_total x.1 y.1 with h | h
      · exact Or.inl (by rw [decide_eq_true_eq]; exact h)
      · exact Or.inr (by rw [decide_eq_true_eq]; exact h))
    (s.entities.filterMap (fun e =>
      match e.orig_addr, e.recomp_addr with
      | none, some a => some (a, e.kvstore)
      | _, _ => none))
  apply hsorted.imp_of_mem
  intro p q _ _ hpq a ha b hb
  rw [symRows_first p t a ha, symRows_first q t b hb]
  rw [decide_eq_true_eq] at hpq
  exact hpq

/-- C4: `match_symbols` is exactly the pass the claim describes — each
unmatched orig entity carrying a symbol is paired with the
lowest-remaining-address unmatched recomp entity carrying the same symbol
(popped from the index), NON_UNIQUE_SYMBOL is reported when further
candidates remain after the pop and NO_MATCH when none exists — and on the
claim's concrete store (orig 0x1000 and recomp 0x2000, both with symbol
FOO) the pass produces the stated round trip with no events. -/
theorem match_symbols_claim_holds :
    (∀ (s : DbState) (t : Bool), match_symbols s t = match_symbols_claim s t) ∧
      (get_by_orig (match_symbols exStoreC4 false).1 0x1000).map
          (·.recomp_addr) = some (some 0x2000) ∧
      (get_by_recomp (match_symbols exStoreC4 false).1 0x2000).map
          (·.orig_addr) = some (some 0x1000) ∧
      (match_symbols exStoreC4 false).2 = [] := by
  refine ⟨?_, by decide, by decide, by decide⟩
  intro s t
  unfold match_symbols match_symbols_claim
  dsimp only
  rw [symStep_eq_aux _ _
    (ixAdd_fold_sorted _ []
      (fun k l h => Option.noConfusion h)
      (fun k l x h => Option.noConfusion h)
      (symRows_pairwise s t))]

/-- C5 counterexample: orig holds an *untyped* label Foo at 0x10 and a
FUNCTION-typed label Foo at 0x20; recomp holds a FUNCTION-typed label Foo
at 0x90.  Under the claim's reading — only unmatched entities grouped by
(name, type-or-null) — the pass would pair 0x20 with 0x90 uniquely and
report nothing.  The SQL groups by label text alone (and, by operator
precedence, admits untyped labels unconditionally), so it pairs 0x10 with
0x90 instead, leaves 0x20 unmatched, and fires an AMBIGUOUS_MATCH
event. -/
theorem positional_match_groups_by_label_only :
    get_matches_for_type_and_label exStoreC5 EntityType.FUNCTION false =
        [(0x10, 0x90, "Foo", false)] ∧
      (get_by_orig (match_functions exStoreC5 false).1 0x20).map
          (·.recomp_addr) = some none ∧
      (get_by_orig (match_functions exStoreC5 false).1 0x10).map
          (·.recomp_addr) = some (some 0x90) ∧
      (match_functions exStoreC5 false).2.length = 1 := by
  decide

theorem match_functions_fold (rows : List (Int × Int × String × Bool)) :
    ∀ (b : EntityBatch) (evs : List Event),
      rows.foldl
        (fun (acc : EntityBatch × List Event) row =>
          let (b, evs) := acc
          let evs :=
            if !row.2.2.2 then
              evs ++ [⟨EventKind.AMBIGUOUS_MATCH, row.1,
                "Ambiguous match " ++ hexStr row.1 ++ " on name \x27"
                  ++ row.2.2.1 ++ "\x27"⟩]
            else evs
          (b.stage_match row.1 row.2.1, evs)) (b, evs) =
      (rows.foldl (fun b row => b.stage_match row.1 row.2.1) b,
        evs ++ (rows.filter (fun row => !row.2.2.2)).map (fun row =>
          ⟨EventKind.AMBIGUOUS_MATCH, row.1,
            "Ambiguous match " ++ hexStr row.1 ++ " on name \x27"
              ++ row.2.2.1 ++ "\x27"⟩)) := by
  induction rows with
  | nil =>
    intro b evs
    simp
  | cons row rest ih =>
    intro b evs
    rw [List.foldl_cons, List.foldl_cons]
    by_cases hflag : (!row.2.2.2) = true
    · rw [List.filter_cons, if_pos hflag]
      dsimp only
      rw [if_pos hflag, ih]
      simp
    · rw [List.filter_cons, if_neg hflag]
      dsimp only
      rw [if_neg hflag, ih]

theorem strict_sorted_indexOf (l : List Int) (a : Int)
    (hpw : l.Pairwise (fun x y : Int => x < y)) (hmem : a ∈ l) :
    l.indexOf a = (l.filter (fun d => decide (d < a))).length := by
  induction l with
  | nil => cases hmem
  | cons x xs ih =>
    rcases List.pairwise_cons.mp hpw with ⟨hx, hxs⟩
    by_cases hax : x = a
    · subst hax
      rw [List.indexOf_cons_self]
      rw [List.filter_cons, if_neg (by simp)]
      have hnil : xs.filter (fun d => decide (d < x)) = [] := by
        rw [List.filter_eq_nil_iff]
        intro b hb
        simp only [decide_eq_true_eq, not_lt]
        exact le_of_lt (hx b hb)
      rw [hnil]
      rfl
    · have hmem2 : a ∈ xs := by
        rcases List.mem_cons.mp hmem with h | h
        · exact absurd h.symm hax
        · exact h
      rw [List.indexOf_cons_ne _ hax]
      rw [List.filter_cons, if_pos (by simp [hx a hmem2])]
      rw [List.length_cons, ih hxs hmem2]

theorem sorted_nodup_strict (l : List Int)
    (hs : l.Pairwise (fun x y : Int => decide (x ≤ y) = true))
    (hnd : l.Nodup) : l.Pairwise (fun x y : Int => x < y) := by
  have := hs.and hnd
  apply this.imp
  intro a b hab
  rw [decide_eq_true_eq] at hab
  exact lt_of_le_of_ne hab.1 hab.2

theorem candNth_rank (cands : List (Int × String × Option Int))
    (c : Int × String × Option Int) (hc : c ∈ cands)
    (hnd : ((cands.filter (fun d => d.2.1 == c.2.1)).map (·.1)).Nodup) :
    candNth cands c =
      ((stableSort (fun x y : Int => decide (x ≤ y))
          ((cands.filter (fun d => d.2.1 == c.2.1)).map (·.1))).indexOf c.1)
        + 1 := by
  have hperm := stableSort_perm (fun x y : Int => decide (x ≤ y))
    ((cands.filter (fun d => d.2.1 == c.2.1)).map (·.1))
  have hsorted := stableSort_pairwise (fun x y : Int => decide (x ≤ y))
    (fun x y z hxy hyz => by
      rw [decide_eq_true_eq] at hxy hyz ⊢
      exact le_trans hxy hyz)
    (fun x y => by
      rcases le_total x y with h | h
      · exact Or.inl (by rw [decide_eq_true_eq]; exact h)
      · exact Or.inr (by rw [decide_eq_true_eq]; exact h))
    ((cands.filter (fun d => d.2.1 == c.2.1)).map (·.1))
  have hstrict := sorted_nodup_strict _ hsorted (hperm.nodup_iff.mpr hnd)
  have hmem : c.1 ∈ stableSort (fun x y : Int => decide (x ≤ y))
      ((cands.filter (fun d => d.2.1 == c.2.1)).map (·.1)) := by
    rw [hperm.mem_iff, List.mem_map]
    exact ⟨c, List.mem_filter.mpr ⟨hc, by simp⟩, rfl⟩
  rw [strict_sorted_indexOf _ c.1 hstrict hmem]
  unfold candNth
  rw [Nat.add_comm]
  congr 1
  rw [← List.countP_eq_length_filter, ← List.countP_eq_length_filter,
    hperm.countP_eq]
  rw [List.countP_eq_length_filter, List.countP_eq_length_filter]
  rw [List.filter_map, List.length_map, List.filter_filter]
  congr 1
  apply List.filter_congr
  intro d _
  simp only [Function.comp, Bool.and_comm]

/-- C5 amended: the positional pass considers, per side, the label-index
entries of the given type at unmatched addresses together with *all
untyped* label entries (even at matched addresses), and groups them by
truncated label text alone, not by (name, type).  Within a group the
occurrence index of an entry is its position, counting from one, in the
group's addresses ranked ascending (first conjunct); orig's k-th
occurrence is paired with recomp's k-th occurrence of the same label,
pairs where both sides are untyped are dropped, and the pass reports
exactly one AMBIGUOUS_MATCH event per yielded pairing whose flag is
non-unique while committing every pairing regardless (second conjunct).
On the claim's own example — orig Bar at 0x10/0x20, recomp Bar at
0x90/0xA0 — the pass matches 0x10 to 0x90 and 0x20 to 0xA0 with exactly
one AMBIGUOUS_MATCH per pairing (third conjunct). -/
theorem positional_match_amended :
    (∀ (cands : List (Int × String × Option Int))
        (c : Int × String × Option Int), c ∈ cands →
        ((cands.filter (fun d => d.2.1 == c.2.1)).map (·.1)).Nodup →
        candNth cands c =
          ((stableSort (fun x y : Int => decide (x ≤ y))
              ((cands.filter (fun d => d.2.1 == c.2.1)).map (·.1))).indexOf
            c.1) + 1) ∧
      (∀ (s : DbState) (t : Bool),
        (match_functions s t).2 =
          ((get_matches_for_type_and_label s EntityType.FUNCTION t).filter
            (fun row => !row.2.2.2)).map (fun row =>
              ⟨EventKind.AMBIGUOUS_MATCH, row.1,
                "Ambiguous match " ++ hexStr row.1 ++ " on name \x27"
                  ++ row.2.2.1 ++ "\x27"⟩) ∧
        (match_functions s t).1 =
          ((((get_matches_for_type_and_label s EntityType.FUNCTION t).foldl
              (fun b row => b.stage_match row.1 row.2.1)
              EntityBatch.empty)).commit s).1) ∧
      (get_matches_for_type_and_label exStoreC5b EntityType.FUNCTION false =
          [(0x10, 0x90, "Bar", false), (0x20, 0xA0, "Bar", false)] ∧
        (get_by_orig (match_functions exStoreC5b false).1 0x10).map
            (·.recomp_addr) = some (some 0x90) ∧
        (get_by_orig (match_functions exStoreC5b false).1 0x20).map
            (·.recomp_addr) = some (some 0xA0) ∧
        (match_functions exStoreC5b false).2.length = 2) := by
  refine ⟨candNth_rank, ?_, by decide, by decide, by decide, by decide⟩
  intro s t
  unfold match_functions
  dsimp only
  rw [match_functions_fold]
  exact ⟨by simp, by simp⟩

/-- Witness: the occurrence-rank characterization applied to a concrete
unsorted candidate group. -/
theorem positional_match_amended_witness :
    candNth [((0x20 : Int), "Bar", some EntityType.FUNCTION),
        ((0x10 : Int), "Bar", some EntityType.FUNCTION)]
      ((0x20 : Int), "Bar", some EntityType.FUNCTION) =
      ((stableSort (fun x y : Int => decide (x ≤ y))
          (([((0x20 : Int), "Bar", some EntityType.FUNCTION),
              ((0x10 : Int), "Bar", some EntityType.FUNCTION)].filter
            (fun d => d.2.1 == "Bar")).map (·.1))).indexOf 0x20) + 1 :=
  positional_match_amended.1
    [((0x20 : Int), "Bar", some EntityType.FUNCTION),
      ((0x10 : Int), "Bar", some EntityType.FUNCTION)]
    ((0x20 : Int), "Bar", some EntityType.FUNCTION)
    (by decide) (by decide)

theorem likeMatch_pct (p s : List Char) :
    likeMatch ('%' :: p) s = true ↔
      ∃ u t, s = u ++ t ∧ likeMatch p t = true := by
  show (if ('%' : Char) = '%' then s.tails.any (fun t => likeMatch p t)
    else _) = true ↔ _
  rw [if_pos rfl, List.any_eq_true]
  constructor
  · rintro ⟨t, ht, hp⟩
    rcases (List.mem_tails t s).mp ht with ⟨u, hu⟩
    exact ⟨u, t, hu.symm, hp⟩
  · rintro ⟨u, t, hs, hp⟩
    exact ⟨t, (List.mem_tails t s).mpr ⟨u, hs.symm⟩, hp⟩

theorem likeMatch_pct_end (s : List Char) : likeMatch ['%'] s = true := by
  rw [likeMatch_pct]
  exact ⟨s, [], by simp, by simp [likeMatch]⟩

theorem likeMatch_lit (lit : List Char) (hw : wildFree lit = true) :
    ∀ (p s : List Char), likeMatch (lit ++ p) s = true ↔
      ∃ t, s = lit ++ t ∧ likeMatch p t = true := by
  induction lit with
  | nil =>
    intro p s
    simp
  | cons c cs ih =>
    rw [wildFree, List.all_cons, Bool.and_eq_true] at hw
    have hc1 : ¬(c = '%') := by
      intro hc
      rw [hc] at hw
      simp at hw
    have hc2 : ¬(c = '_') := by
      intro hc
      rw [hc] at hw
      simp at hw
    intro p s
    show (if c = '%' then _ else if c = '_' then _ else
      match s with
      | [] => false
      | d :: srest => c == d && likeMatch (cs ++ p) srest) = true ↔ _
    rw [if_neg hc1, if_neg hc2]
    cases s with
    | nil =>
      constructor
      · intro h
        exact absurd h (by simp)
      · rintro ⟨t, ht, _⟩
        exact absurd ht (by simp)
    | cons d srest =>
      rw [Bool.and_eq_true, beq_iff_eq]
      constructor
      · rintro ⟨hcd, hrest⟩
        rcases (ih hw.2 p srest).mp hrest with ⟨t, ht, hp⟩
        exact ⟨t, by rw [← hcd, ht]; rfl, hp⟩
      · rintro ⟨t, ht, hp⟩
        rw [List.cons_append] at ht
        injection ht with h1 h2
        exact ⟨h1.symm, (ih hw.2 p srest).mpr ⟨t, h2, hp⟩⟩

theorem lowerChars_static_pattern (n f : String) :
    lowerChars ("%" ++ n ++ "%" ++ f ++ "%") =
      '%' :: (lowerChars n ++ '%' :: (lowerChars f ++ ['%'])) := by
  unfold lowerChars
  show ((("%" ++ n ++ "%" ++ f ++ "%").data).map Char.toLower) = _
  rw [String.data_append, String.data_append, String.data_append,
    String.data_append]
  rw [show ("%" : String).data = ['%'] from rfl]
  simp [show Char.toLower '%' = '%' from by decide, String.toList]

theorem sqlLike_static_pattern (sym n f : String)
    (hn : wildFree (lowerChars n) = true)
    (hf : wildFree (lowerChars f) = true) :
    sqlLike sym ("%" ++ n ++ "%" ++ f ++ "%") = true ↔
      ContainsInOrderCI sym n f := by
  unfold sqlLike
  rw [lowerChars_static_pattern, likeMatch_pct]
  unfold ContainsInOrderCI
  constructor
  · rintro ⟨u, t, hs, hp⟩
    rcases (likeMatch_lit _ hn _ _).mp hp with ⟨t2, ht2, hp2⟩
    rcases (likeMatch_pct _ _).mp hp2 with ⟨u2, t3, ht3, hp3⟩
    rcases (likeMatch_lit _ hf _ _).mp hp3 with ⟨t4, ht4, _⟩
    refine ⟨u, u2, t4, ?_⟩
    rw [hs, ht2, ht3, ht4]
    simp
  · rintro ⟨u, v, w, hs⟩
    refine ⟨u, lowerChars n ++ v ++ lowerChars f ++ w, by simpa using hs, ?_⟩
    apply (likeMatch_lit _ hn _ _).mpr
    refine ⟨v ++ lowerChars f ++ w, by simp, ?_⟩
    apply (likeMatch_pct _ _).mpr
    refine ⟨v, lowerChars f ++ w, by simp, ?_⟩
    apply (likeMatch_lit _ hf _ _).mpr
    exact ⟨w, rfl, likeMatch_pct_end w⟩

/-- C9 counterexample: the recomp entity at 0x300 is unmatched, DATA-typed,
and its symbol contains *both* the variable's plain name ("counter") and
the parent function's mangled symbol as substrings — the function symbol
first.  The claim says the pass matches such an entity; the SQL test is
`LIKE '%' || name || '%' || function_symbol || '%'`, which requires the
name to occur *before* the function symbol, so the pass reports NO_MATCH
and stores nothing. -/
theorem static_variable_substring_order_matters :
    (match_static_variables exStoreC9).1 = exStoreC9 ∧
      (match_static_variables exStoreC9).2 =
        [⟨EventKind.NO_MATCH, 0x200,
          "Failed to match static variable counter from function Tick annotated with 0x200"⟩] ∧
      (∃ u v, lowerChars "?Tick@IsleApp@@QAEXH@Zcounter" =
        u ++ lowerChars "counter" ++ v) ∧
      ∃ u v, lowerChars "?Tick@IsleApp@@QAEXH@Zcounter" =
        u ++ lowerChars "?Tick@IsleApp@@QAEXH@Z" ++ v :=
  ⟨by decide, by decide,
    ⟨lowerChars "?Tick@IsleApp@@QAEXH@Z", [], by decide⟩,
    ⟨[], lowerChars "counter", by decide⟩⟩

/-- C9 amended: the recomp symbol must match the case-insensitive SQL
pattern `'%' || name || '%' || function_symbol || '%'` — for names and
symbols free of LIKE wildcards this means it contains an occurrence of the
variable's plain name *followed by* an occurrence of the parent function's
mangled symbol (first conjunct); candidates are unmatched recomp entities
of DATA type or untyped, scanned in ascending recomp-address order (second
conjunct), and the first match wins.  The MSVC convention example matches
(third conjunct), and the two NO_MATCH message forms distinguish a missing
parent-function symbol (fourth conjunct) from a failed symbol test (the
counterexample theorem's message). -/
theorem match_static_variables_amended :
    (∀ sym n f : String, wildFree (lowerChars n) = true →
        wildFree (lowerChars f) = true →
        (sqlLike sym ("%" ++ n ++ "%" ++ f ++ "%") = true ↔
          ContainsInOrderCI sym n f)) ∧
      (∀ s : DbState,
        ((recomp_unmatched s).map (·.1)).Pairwise
          (fun a b : Int => a ≤ b)) ∧
      ((get_by_orig (match_static_variables exStoreC9b).1 0x200).map
          (·.recomp_addr) = some (some 0x300) ∧
        (match_static_variables exStoreC9b).2 = []) ∧
      (match_static_variables exStoreC9c).2 =
        [⟨EventKind.NO_MATCH, 0x200,
          "No function for static variable \x27counter\x27"⟩] := by
  refine ⟨sqlLike_static_pattern, ?_, ⟨by decide, by decide⟩, by decide⟩
  intro s
  rw [List.pairwise_map]
  unfold recomp_unmatched
  have hsorted := stableSort_pairwise
    (fun x y : Int × KV => decide (x.1 ≤ y.1))
    (fun x y z hxy hyz => by
      rw [decide_eq_true_eq] at hxy hyz ⊢
      exact le_trans hxy hyz)
    (fun x y => by
      rcases le_total x.1 y.1 with h | h
      · exact Or.inl (by rw [decide_eq_true_eq]; exact h)
      · exact Or.inr (by rw [decide_eq_true_eq]; exact h))
    (s.entities.filterMap (fun e =>
      match e.orig_addr, e.recomp_addr with
      | none, some a => some (a, e.kvstore)
      | _, _ => none))
  exact hsorted.imp (fun hab => by
    rw [decide_eq_true_eq] at hab
    exact hab)

/-- Witness: the LIKE characterization applied to a concrete symbol, name
and function symbol. -/
theorem match_static_variables_amended_witness :
    sqlLike "xAByEFz" ("%" ++ "ab" ++ "%" ++ "ef" ++ "%") = true ↔
      ContainsInOrderCI "xAByEFz" "ab" "ef" :=
  match_static_variables_amended.1 "xAByEFz" "ab" "ef" (by decide) (by decide)

end Reccmp
